import Mathlib

/-!
# Ghostream fan-out core: Hub, multicast output manager, relay receive loops

A shallow embedding of `stream/messaging.go`, `stream/multicast/muticast.go` and the two
receive loops of `stream/webrtc/ingest.go`, followed by the properties proved about them.

Conventions of the embedding

* A consumer channel is a record `Chan`: capacity, buffered messages, closed flag, and the
  number of receivers parked on it (goroutines blocked in a receive). Two history fields that
  no operation reads record what happened to it: `sent` (every message a send completed with,
  in order) and `closes` (how many `close` calls succeeded on it).
* A send completes at once when a receiver is parked (the message is handed to it, the buffer
  is not used) or else when the buffer has a free slot; this is the order of the Go run time.
* A Go run-time panic (send on a closed channel, close of a closed channel, nil pointer
  dereference, explicit `panic(err)`) is the result `Except.error Fault.panic`; an operation
  that cannot complete yet is `Except.error Fault.blocked`.
* The `run` goroutine receives a message from the inbound queue before it takes the lock, so
  the Hub state has a field `inflight` for the message taken off the queue and not yet
  passed to the consumers; taking and passing are two steps, and any other step may come
  between them.
* A Go map with channel keys is the list of its keys; `range` visits the keys in list order,
  so a statement quantified over every list covers every iteration order.
* A handle stands for a channel made with `make`; nil channels are outside the model.
* Results of calls into the operating system and into the rtp and webrtc libraries
  (pipe creation, process start, `Kill`, `ReadFromUDP`, `Unmarshal`, `WriteRTP`) are
  parameters of the functions that make them.
-/

namespace Ghostream

/-! ## Channels -/

/-- Messages carried by a Hub (`interface{}` in the source, payload-agnostic). -/
abbrev Msg := Nat

/-- Identity of a consumer channel (the `chan<- interface{}` used as map key). -/
abbrev Handle := Nat

/-- Ways in which an operation fails to return normally. -/
inductive Fault where
  | panic
  | blocked
deriving DecidableEq, Repr

/-- State of one consumer channel. `parked` counts the receivers blocked on it; `sent` and
`closes` are history fields. -/
structure Chan where
  cap : Nat
  buf : List Msg
  closed : Bool
  parked : Nat
  sent : List Msg
  closes : Nat
deriving DecidableEq, Repr

/-- Result of `make(chan interface{}, n)`. -/
def Chan.make (n : Nat) : Chan :=
  { cap := n, buf := [], closed := false, parked := 0, sent := [], closes := 0 }

/-- Whether a send on the open channel completes at once: a receiver is parked on it, or its
buffer has a free slot. -/
def Chan.ready (c : Chan) : Bool :=
  decide (0 < c.parked) || decide (c.buf.length < c.cap)

/-- The channel after a send completed: the message went to a parked receiver if there is
one, else to the end of the buffer. -/
def Chan.accept (c : Chan) (m : Msg) : Chan :=
  if 0 < c.parked then { c with parked := c.parked - 1, sent := c.sent ++ [m] }
  else { c with buf := c.buf ++ [m], sent := c.sent ++ [m] }

/-- The channel after a successful `close`: parked receivers are released. -/
def Chan.shut (c : Chan) : Chan :=
  { c with closed := true, parked := 0, closes := c.closes + 1 }

/-- Non-blocking send, `select { case c <- m: default: }`: `some` is the channel after the
send, `none` is the `default` branch. A closed channel panics whatever its buffer holds. -/
def Chan.trySend (c : Chan) (m : Msg) : Except Fault (Option Chan) :=
  if c.closed then .error .panic
  else if c.ready then .ok (some (c.accept m))
  else .ok none

/-- Builtin `close(c)`. -/
def Chan.close (c : Chan) : Except Fault Chan :=
  if c.closed then .error .panic else .ok c.shut

/-- A consumer executing `<-c`: it takes the oldest buffered message; on a closed and drained
channel it returns at once with nothing; on an open empty channel it parks. -/
def Chan.recv (c : Chan) : Option Msg × Chan :=
  match c.buf with
  | m :: rest => (some m, { c with buf := rest })
  | [] => if c.closed then (none, c) else (none, { c with parked := c.parked + 1 })

/-- The inbound queue `Broadcast`. Its only receiver is `run`; handing a message to `run`
parked at its receive is the same as queueing it and letting `run` take it as its next step,
so no parked receiver is counted here. -/
structure Inbound where
  cap : Nat
  buf : List Msg
  closed : Bool
deriving DecidableEq, Repr

/-! ## Hub (`stream/messaging.go`) -/

/-- The `Stream` struct together with the consumer channels it refers to and the position of
its `run` goroutine. `heap` gives the state of every consumer channel; `inflight` is the
message `run` has received from the inbound queue and not yet passed to the consumers;
`finished` records that `run` has returned. The mutex makes each operation below atomic. -/
structure Stream where
  Broadcast : Inbound
  inflight : Option Msg
  outputs : List Handle
  heap : Handle → Chan
  finished : Bool

/-- Map insertion `m[k] = struct{}{}` on a key list. -/
def mapInsert (l : List Handle) (h : Handle) : List Handle :=
  if h ∈ l then l else l ++ [h]

/-- Map deletion `delete(m, k)` on a key list. -/
def mapDelete (l : List Handle) (h : Handle) : List Handle :=
  l.filter (fun x => decide (x ≠ h))

/-- `New`: inbound queue of capacity 64, empty consumer set, `run` started. -/
def Stream.New (heap : Handle → Chan) : Stream :=
  { Broadcast := { cap := 64, buf := [], closed := false }
    inflight := none, outputs := [], heap := heap, finished := false }

/-- Body of the inner `for output := range s.outputs` of `run` for one member:
a non-blocking send, and on `default` the member is deleted and closed. -/
def Stream.deliver (m : Msg) (s : Stream) (h : Handle) : Except Fault Stream :=
  match (s.heap h).trySend m with
  | .error e => .error e
  | .ok (some c) => .ok { s with heap := Function.update s.heap h c }
  | .ok none =>
    match (s.heap h).close with
    | .error e => .error e
    | .ok c => .ok { s with outputs := mapDelete s.outputs h,
                            heap := Function.update s.heap h c }

/-- The inner loop of `run` over a snapshot of the keys. -/
def Stream.deliverAll (m : Msg) : List Handle → Stream → Except Fault Stream
  | [], s => .ok s
  | h :: hs, s =>
    match s.deliver m h with
    | .error e => .error e
    | .ok s1 => Stream.deliverAll m hs s1

/-- One dispatch pass: the locked closure of `run` for message `m`. -/
def Stream.dispatch (s : Stream) (m : Msg) : Except Fault Stream :=
  Stream.deliverAll m s.outputs s

/-- Body of the closing loop of `run` for one member: delete, then close. -/
def Stream.drop (s : Stream) (h : Handle) : Except Fault Stream :=
  match (s.heap h).close with
  | .error e => .error e
  | .ok c => .ok { s with outputs := mapDelete s.outputs h,
                          heap := Function.update s.heap h c }

/-- The closing loop of `run` over a snapshot of the keys. -/
def Stream.dropAll : List Handle → Stream → Except Fault Stream
  | [], s => .ok s
  | h :: hs, s =>
    match s.drop h with
    | .error e => .error e
    | .ok s1 => Stream.dropAll hs s1

/-- Epilogue of `run`, after the `range` over the inbound queue ended: every remaining
consumer is deleted and closed under the lock, and the goroutine returns. -/
def Stream.closeAll (s : Stream) : Except Fault Stream :=
  match Stream.dropAll s.outputs s with
  | .error e => .error e
  | .ok s1 => .ok { s1 with finished := true }

/-- `Register`. -/
def Stream.Register (s : Stream) (h : Handle) : Stream :=
  { s with outputs := mapInsert s.outputs h }

/-- `Unregister`. -/
def Stream.Unregister (s : Stream) (h : Handle) : Except Fault Stream :=
  if h ∈ s.outputs then
    match (s.heap h).close with
    | .error e => .error e
    | .ok c => .ok { s with outputs := mapDelete s.outputs h,
                            heap := Function.update s.heap h c }
  else .ok s

/-- `Close`: `close(s.Broadcast)`. -/
def Stream.Close (s : Stream) : Except Fault Stream :=
  if s.Broadcast.closed then .error .panic
  else .ok { s with Broadcast := { s.Broadcast with closed := true } }

/-- The publisher's `s.Broadcast <- msg`, observed when it returns: a panic on a closed
queue, blocked while the queue is at capacity. -/
def Stream.Publish (s : Stream) (m : Msg) : Except Fault Stream :=
  if s.Broadcast.closed then .error .panic
  else if s.Broadcast.buf.length < s.Broadcast.cap then
    .ok { s with Broadcast := { s.Broadcast with buf := s.Broadcast.buf ++ [m] } }
  else .error .blocked

/-- The receive of `for msg := range broadcast` in `run`: the oldest inbound message is
taken off the queue. The lock is not held. -/
def Stream.runTake (s : Stream) : Except Fault Stream :=
  if s.finished then .error .blocked
  else
    match s.inflight, s.Broadcast.buf with
    | none, m :: rest =>
      .ok { s with Broadcast := { s.Broadcast with buf := rest }, inflight := some m }
    | _, _ => .error .blocked

/-- The locked closure of `run` for the message taken off the queue. -/
def Stream.runPass (s : Stream) : Except Fault Stream :=
  if s.finished then .error .blocked
  else
    match s.inflight with
    | some m => Stream.dispatch { s with inflight := none } m
    | none => .error .blocked

/-- The exit of `for msg := range broadcast` (inbound queue closed and drained) followed by
the epilogue of `run`. -/
def Stream.runExit (s : Stream) : Except Fault Stream :=
  if s.finished then .error .blocked
  else
    match s.inflight, s.Broadcast.buf with
    | none, [] => if s.Broadcast.closed then s.closeAll else .error .blocked
    | _, _ => .error .blocked

/-- One turn of the loop of `run` with nothing happening in between: the receive, unless a
message is already in flight, then the pass. -/
def Stream.runTurn (s : Stream) : Except Fault Stream :=
  match s.inflight with
  | some _ => s.runPass
  | none =>
    match s.runTake with
    | .error e => .error e
    | .ok s1 => s1.runPass

/-- The loop of `run` executed without interleaving until the inbound queue is drained, at
most `fuel` turns: the result is the state at loop exit. -/
def Stream.drain : Nat → Stream → Except Fault Stream
  | 0, s => .ok s
  | n + 1, s =>
    match s.inflight, s.Broadcast.buf with
    | none, [] => .ok s
    | _, _ =>
      match s.runTurn with
      | .error e => .error e
      | .ok s1 => Stream.drain n s1

/-- The `run` goroutine executed without interleaving: the loop, then the exit. -/
def Stream.run (fuel : Nat) (s : Stream) : Except Fault Stream :=
  match Stream.drain fuel s with
  | .error e => .error e
  | .ok s1 => s1.runExit

/-- A consumer executing a receive on its channel. -/
def Stream.consume (s : Stream) (h : Handle) : Stream :=
  { s with heap := Function.update s.heap h (s.heap h).recv.2 }

/-- Atomic steps of a Hub and its environment. `take` and `pass` are the two halves of one
turn of the loop of `run`. -/
inductive Op where
  | publish (m : Msg)
  | register (h : Handle)
  | unregister (h : Handle)
  | close
  | take
  | pass
  | finish
  | recv (h : Handle)
deriving DecidableEq, Repr

/-- Effect of one step. -/
def Stream.step (s : Stream) : Op → Except Fault Stream
  | .publish m => s.Publish m
  | .register h => .ok (s.Register h)
  | .unregister h => s.Unregister h
  | .close => s.Close
  | .take => s.runTake
  | .pass => s.runPass
  | .finish => s.runExit
  | .recv h => .ok (s.consume h)

/-- Effect of a sequence of steps, left to right. -/
def Stream.exec (s : Stream) : List Op → Except Fault Stream
  | [] => .ok s
  | op :: ops =>
    match s.step op with
    | .error e => .error e
    | .ok s1 => Stream.exec s1 ops

/-- The message a step puts on the inbound queue, if any. -/
def Op.pub : Op → List Msg
  | .publish m => [m]
  | _ => []

/-- Messages published by a sequence of steps, in order. -/
def published : List Op → List Msg
  | [] => []
  | op :: ops => op.pub ++ published ops

/-- The message a step dispatches (runs the pass for), if any. -/
def Stream.passing (s : Stream) : Op → List Msg
  | .pass => s.inflight.toList
  | _ => []

/-- Messages dispatched by the pass steps of a sequence, in order. -/
def Stream.dispatched (s : Stream) : List Op → List Msg
  | [] => []
  | op :: ops =>
    match s.step op with
    | .error _ => []
    | .ok s1 => s.passing op ++ Stream.dispatched s1 ops

/-- Whether a step leaves consumer `h` registered: it is not `Unregister h`, not the
termination of the Hub, and not a pass at which `h` has neither a parked receiver nor a free
slot. -/
def Stream.keeps (h : Handle) (s : Stream) : Op → Bool
  | .unregister k => decide (k ≠ h)
  | .finish => false
  | .pass => decide (0 < (s.heap h).parked) || decide ((s.heap h).buf.length < (s.heap h).cap)
  | _ => true

/-- Consumer `h` stays registered along a sequence of steps. -/
def Stream.healthy (h : Handle) (s : Stream) : List Op → Bool
  | [] => true
  | op :: ops =>
    s.keeps h op &&
    (match s.step op with
     | .error _ => true
     | .ok s1 => Stream.healthy h s1 ops)

/-- State reached by a sequence of steps (the start state if the sequence fails). -/
def Stream.after (s : Stream) (ops : List Op) : Stream :=
  match s.exec ops with
  | .ok t => t
  | .error _ => s

/-- Hub invariant: the key list has no repetition (it is a map) and every member is an
open channel. -/
def Stream.WF (s : Stream) : Prop :=
  s.outputs.Nodup ∧ ∀ h ∈ s.outputs, (s.heap h).closed = false

instance (s : Stream) : Decidable s.WF := by
  unfold Stream.WF; infer_instance

/-! ## Multicast output manager (`stream/multicast/muticast.go`) -/

/-- An `exec.Cmd` as far as this package uses it: the arguments given to `exec.Command`
after the program name. -/
structure Cmd where
  args : List String
deriving DecidableEq, Repr

/-- The write end of a subprocess input pipe: the chunks written so far, and whether
`Write` returns an error. -/
structure Pipe where
  written : List (List Nat)
  broken : Bool
deriving DecidableEq, Repr

/-- The package-level variables. A Go map is a function to `Option`, `none` being the nil
pointer a lookup of a missing key yields; for `options.Outputs` a missing key reads as the
empty list. `killed` is a history field listing the commands whose process was killed. -/
structure Multicast where
  options : String → List String
  ffmpegInstances : String → Option Cmd
  ffmpegInputStreams : String → Option Pipe
  killed : List Cmd

/-- Outcomes of the operating-system calls made while spawning a subprocess. -/
structure SpawnEnv where
  stdinErr : Bool
  stdoutErr : Bool
  stderrErr : Bool
  startErr : Bool
deriving DecidableEq, Repr

/-- The parameters appended for one destination in the loop of `RegisterStream`. -/
def stageParams (stream : String) : List String :=
  ["-f", "flv", "-c:v", "libx264", "-preset",
   "veryfast", "-maxrate", "3000k", "-bufsize", "6000k", "-pix_fmt", "yuv420p", "-g", "50",
   "-c:a", "aac", "-b:a", "160k", "-ac", "2", "-ar", "44100", stream]

/-- The argument list built by `RegisterStream`: `params` after the loop. -/
def buildParams (outputs : List String) : List String :=
  outputs.foldl (fun params stream => params ++ stageParams stream) ["-re", "-i", "pipe:0"]

/-- `RegisterStream`. A failure to open a pipe or to start the process panics; the two log
goroutines do not touch the package variables. -/
def RegisterStream (env : SpawnEnv) (st : Multicast) (streamKey : String) :
    Except Fault Multicast :=
  if (st.options streamKey).length = 0 then .ok st
  else
    let params := buildParams (st.options streamKey)
    let ffmpeg : Cmd := { args := params }
    if env.stdinErr then .error .panic
    else if env.stdoutErr then .error .panic
    else if env.stderrErr then .error .panic
    else
      let st1 := { st with
        ffmpegInstances := Function.update st.ffmpegInstances streamKey (some ffmpeg),
        ffmpegInputStreams :=
          Function.update st.ffmpegInputStreams streamKey (some { written := [], broken := false }) }
      if env.startErr then .error .panic else .ok st1

/-- `SendPacket`: the looked-up pointer is dereferenced without a nil check; a `Write` error
is logged and otherwise ignored. -/
def SendPacket (st : Multicast) (streamKey : String) (data : List Nat) :
    Except Fault Multicast :=
  match st.ffmpegInputStreams streamKey with
  | none => .error .panic
  | some stdin =>
    if stdin.broken then .ok st
    else .ok { st with
      ffmpegInputStreams := Function.update st.ffmpegInputStreams streamKey
        (some { stdin with written := stdin.written ++ [data] }) }

/-- `CloseConnection`: the looked-up command is dereferenced without a nil check; an error
from `Kill` (`killErr`) panics; otherwise both map entries are deleted. -/
def CloseConnection (killErr : Bool) (st : Multicast) (streamKey : String) :
    Except Fault Multicast :=
  match st.ffmpegInstances streamKey with
  | none => .error .panic
  | some ffmpeg =>
    if killErr then .error .panic
    else .ok { st with
      ffmpegInstances := Function.update st.ffmpegInstances streamKey none,
      ffmpegInputStreams := Function.update st.ffmpegInputStreams streamKey none,
      killed := st.killed ++ [ffmpeg] }

/-- The 22 parameters that open every encode+push stage. -/
def stageFixed : List String :=
  ["-f", "flv", "-c:v", "libx264", "-preset",
   "veryfast", "-maxrate", "3000k", "-bufsize", "6000k", "-pix_fmt", "yuv420p", "-g", "50",
   "-c:a", "aac", "-b:a", "160k", "-ac", "2", "-ar", "44100"]

/-- Every spawn call succeeds. -/
def spawnOk : SpawnEnv :=
  { stdinErr := false, stdoutErr := false, stderrErr := false, startErr := false }

/-- Key "live" has two destinations configured, every other key none; nothing is bound. -/
def mcIdle : Multicast :=
  { options := fun k => if k = "live" then ["rtmp://a/x", "rtmp://b/y"] else []
    ffmpegInstances := fun _ => none
    ffmpegInputStreams := fun _ => none
    killed := [] }

/-! ## Relay receive loops (`stream/webrtc/ingest.go`) -/

/-- An RTP packet as the rtp library decodes it: header fields and payload. -/
structure Packet where
  version : Nat
  padding : Bool
  extension : Bool
  marker : Bool
  payloadType : Nat
  sequenceNumber : Nat
  timestamp : Nat
  ssrc : Nat
  csrc : List Nat
  payload : List Nat
deriving DecidableEq, Repr

/-- A destination sink (`*webrtc.Track`): an identity and the values its `PayloadType()` and
`SSRC()` getters return. -/
structure Track where
  id : Nat
  payloadType : Nat
  ssrc : Nat
deriving DecidableEq, Repr

/-- The two media kinds, one receive loop each. -/
inductive Kind where
  | video
  | audio
deriving DecidableEq, Repr

/-- The package maps `videoTracks` and `audioTracks`: per kind and stream name either nil
(`none`) or a slice of sinks. -/
abbrev Tracks := Kind → String → Option (List Track)

/-- One call of `WriteRTP`: the sink, the packet it was handed, and whether the call failed. -/
structure Offer where
  track : Track
  packet : Packet
  failed : Bool
deriving DecidableEq, Repr

/-- One turn of a receive loop as the environment presents it: what the session layer did to
the track maps since the previous turn, and the result of `ReadFromUDP` (`none` is an error). -/
structure Arrival where
  touch : Tracks → Tracks
  read : Option (List Nat)

/-- The inner `for _, track := range tracks[name]` of a receive loop. The packet is shared
by pointer, so the header fields written for one sink are still set when the next is served.
`writeErr` says which `WriteRTP` calls fail; a failure is logged and the loop goes on. -/
def writeToTracks (writeErr : Track → Packet → Bool) : Packet → List Track → List Offer
  | _, [] => []
  | packet, t :: ts =>
    let packet1 := { packet with payloadType := t.payloadType, ssrc := t.ssrc }
    { track := t, packet := packet1, failed := writeErr t packet1 } ::
      writeToTracks writeErr packet1 ts

/-- Body of a receive loop after a successful read of `bytes`: at most 1500 bytes are kept
(the read buffer), `unmarshal` is the rtp library decoder, a decode failure is logged and
skipped, a nil slice is replaced by an empty one, and every sink is served. -/
def relayDatagram (unmarshal : List Nat → Option Packet) (writeErr : Track → Packet → Bool)
    (kind : Kind) (name : String) (tracks : Tracks) (bytes : List Nat) :
    Tracks × List Offer :=
  match unmarshal (bytes.take 1500) with
  | none => (tracks, [])
  | some packet =>
    let tracks1 : Tracks :=
      match tracks kind name with
      | none => Function.update tracks kind (Function.update (tracks kind) name (some []))
      | some _ => tracks
    (tracks1, writeToTracks writeErr packet ((tracks1 kind name).getD []))

/-- A receive loop of `ingest` (video or audio) run over a list of turns: a read error
breaks the loop, every other turn is handled by `relayDatagram`. The result is the final
track maps and, per datagram handled, the offers made for it. -/
def receiveLoop (unmarshal : List Nat → Option Packet) (writeErr : Track → Packet → Bool)
    (kind : Kind) (name : String) : Tracks → List Arrival → Tracks × List (List Offer)
  | tracks, [] => (tracks, [])
  | tracks, a :: rest =>
    match a.read with
    | none => (a.touch tracks, [])
    | some bytes =>
      let r := relayDatagram unmarshal writeErr kind name (a.touch tracks) bytes
      let r2 := receiveLoop unmarshal writeErr kind name r.1 rest
      (r2.1, r.2 :: r2.2)

/-- A packet with the destination fields set for sink `t`. -/
def Packet.forTrack (p : Packet) (t : Track) : Packet :=
  { p with payloadType := t.payloadType, ssrc := t.ssrc }

/-- A stand-in decoder for examples: the first byte is the sequence number, the rest is the
payload; an empty datagram does not decode. -/
def toyUnmarshal : List Nat → Option Packet
  | [] => none
  | n :: rest =>
    some { version := 2, padding := false, extension := false, marker := false,
           payloadType := 0, sequenceNumber := n, timestamp := 0, ssrc := 0, csrc := [],
           payload := rest }

/-- Two video sinks and one audio sink for stream "demo". -/
def toyTracks : Tracks := fun k name =>
  if name = "demo" then
    match k with
    | .video => some [{ id := 1, payloadType := 96, ssrc := 11 },
                      { id := 2, payloadType := 97, ssrc := 22 }]
    | .audio => some [{ id := 3, payloadType := 111, ssrc := 33 }]
  else none

/-- What a dispatch pass does to the channel of one member. -/
def passChan (m : Msg) (c : Chan) : Chan :=
  if c.ready then c.accept m else c.shut

/-- Closed form of the consumer channels after the inner loop has visited the keys `l`. -/
def passHeap (m : Msg) (l : List Handle) (heap : Handle → Chan) : Handle → Chan :=
  fun h => if h ∈ l then passChan m (heap h) else heap h

/-- Closed form of the key list after the inner loop has visited the keys `l`. -/
def passOutputs (l : List Handle) (heap : Handle → Chan) (outs : List Handle) : List Handle :=
  outs.filter (fun h => !(decide (h ∈ l) && !(heap h).ready))

/-- Closed form of the consumer channels after the closing loop has visited the keys `l`. -/
def shutHeap (l : List Handle) (heap : Handle → Chan) : Handle → Chan :=
  fun h => if h ∈ l then (heap h).shut else heap h

/-- A fresh Hub in a world where every consumer channel has capacity 16. -/
def hubFresh : Stream := Stream.New (fun _ => Chan.make 16)

/-- A fresh Hub in a world where every consumer channel is unbuffered. -/
def hubUnbuffered : Stream := Stream.New (fun _ => Chan.make 0)

/-- Publishing a list of messages, in order. -/
def pubs (l : List Msg) : List Op := l.map Op.publish

/-- The steps of `n` turns of the loop of `run`. -/
def turns (n : Nat) : List Op := (List.replicate n [Op.take, Op.pass]).flatten

/-- A Hub with three members: handle 0 has a free slot, handle 1 is full with nobody
waiting, handle 2 is unbuffered with one receiver parked on it. -/
def hubThree : Stream :=
  { Broadcast := { cap := 64, buf := [], closed := false }
    inflight := none
    outputs := [0, 1, 2]
    heap := fun h =>
      if h = 1 then { cap := 1, buf := [7], closed := false, parked := 0, sent := [7],
                      closes := 0 }
      else if h = 2 then { cap := 0, buf := [], closed := false, parked := 1, sent := [],
                           closes := 0 }
      else Chan.make 1
    finished := false }

/-- A Hub with a closed inbound queue, one message in flight and one queued, and three
members: handle 0 has two free slots, handle 1 is full with nobody waiting, handle 2 is
unbuffered with two receivers parked on it. -/
def hubClosing : Stream :=
  { Broadcast := { cap := 64, buf := [4], closed := true }
    inflight := some 3
    outputs := [0, 1, 2]
    heap := fun h =>
      if h = 1 then { cap := 1, buf := [7], closed := false, parked := 0, sent := [7],
                      closes := 0 }
      else if h = 2 then { cap := 0, buf := [], closed := false, parked := 2, sent := [],
                           closes := 0 }
      else Chan.make 2
    finished := false }

/-- The state `hubClosing` is in when `run` has returned. -/
def hubClosed : Stream :=
  match Stream.run 2 hubClosing with
  | .ok t => t
  | .error _ => hubClosing

/-- A Hub that terminated after serving consumer 1. -/
def hubEnded : Stream := hubFresh.after [Op.register 1, Op.close, Op.finish]

/-- A Hub that has published and dispatched 1..5 with nobody registered. -/
def hubFive : Stream := hubFresh.after (pubs [1, 2, 3, 4, 5] ++ turns 5)

/-- A Hub with message 1 taken off the queue but not yet passed, and message 2 queued. -/
def hubMidTurn : Stream := hubFresh.after [Op.publish 1, Op.publish 2, Op.take]

/-! ## Theorems -/

theorem mem_mapDelete (l : List Handle) (h x : Handle) :
    x ∈ mapDelete l h ↔ x ∈ l ∧ x ≠ h := by
  simp [mapDelete]

theorem mem_mapInsert (l : List Handle) (h x : Handle) :
    x ∈ mapInsert l h ↔ x ∈ l ∨ x = h := by
  unfold mapInsert
  split
  · constructor
    · intro hx; exact Or.inl hx
    · rintro (hx | rfl) <;> assumption
  · simp

theorem nodup_mapDelete (l : List Handle) (h : Handle) (hl : l.Nodup) :
    (mapDelete l h).Nodup :=
  hl.filter _

theorem nodup_mapInsert (l : List Handle) (h : Handle) (hl : l.Nodup) :
    (mapInsert l h).Nodup := by
  unfold mapInsert
  split
  · exact hl
  · rename_i hn
    exact List.Nodup.append hl (List.nodup_singleton h) (by simpa using hn)

theorem deliver_open (m : Msg) (s : Stream) (h : Handle)
    (ho : (s.heap h).closed = false) :
    s.deliver m h = .ok { s with
      outputs := if (s.heap h).ready then s.outputs else mapDelete s.outputs h,
      heap := Function.update s.heap h (passChan m (s.heap h)) } := by
  unfold Stream.deliver Chan.trySend Chan.close passChan
  cases hf : (s.heap h).ready <;> simp [ho]

theorem deliverAll_open (m : Msg) (l : List Handle) :
    ∀ s : Stream, l.Nodup → (∀ h ∈ l, (s.heap h).closed = false) →
      Stream.deliverAll m l s = .ok { s with
        outputs := passOutputs l s.heap s.outputs,
        heap := passHeap m l s.heap } := by
  induction l with
  | nil =>
    intro s _ _
    cases s
    simp only [Stream.deliverAll, passOutputs]
    congr 2
    simp
  | cons h hs ih =>
    intro s hnd hopen
    have hh : h ∉ hs := (List.nodup_cons.mp hnd).1
    have hnd2 : hs.Nodup := (List.nodup_cons.mp hnd).2
    have hne : ∀ x ∈ hs, x ≠ h := fun x hx hxe => hh (hxe ▸ hx)
    rw [Stream.deliverAll, deliver_open m s h (hopen h (List.mem_cons_self h hs))]
    simp only
    rw [ih _ hnd2 (by
      intro x hx
      simp only [Function.update_noteq (hne x hx)]
      exact hopen x (List.mem_cons_of_mem h hx))]
    congr 1
    have hheap : passHeap m hs (Function.update s.heap h (passChan m (s.heap h)))
        = passHeap m (h :: hs) s.heap := by
      funext x
      by_cases hx : x = h
      · subst hx
        simp [passHeap, hh]
      · by_cases hxs : x ∈ hs <;> simp [passHeap, hx, hxs, Function.update_noteq hx]
    have houts : passOutputs hs (Function.update s.heap h (passChan m (s.heap h)))
          (if (s.heap h).ready then s.outputs else mapDelete s.outputs h)
        = passOutputs (h :: hs) s.heap s.outputs := by
      unfold passOutputs
      split
      · rename_i hf
        apply List.filter_congr
        intro x _
        by_cases hx : x = h
        · subst hx; simp [hf, hh]
        · simp [hx, Function.update_noteq hx]
      · rename_i hf
        unfold mapDelete
        rw [List.filter_filter]
        apply List.filter_congr
        intro x _
        by_cases hx : x = h
        · subst hx; simp [hf]
        · simp [hx, Function.update_noteq hx]
    simp only [Stream.mk.injEq, true_and, and_true]
    exact ⟨houts, hheap⟩

theorem dispatch_open (s : Stream) (m : Msg) (hwf : s.WF) :
    s.dispatch m = .ok { s with
      outputs := passOutputs s.outputs s.heap s.outputs,
      heap := passHeap m s.outputs s.heap } :=
  deliverAll_open m s.outputs s hwf.1 hwf.2

theorem drop_open (s : Stream) (h : Handle) (ho : (s.heap h).closed = false) :
    s.drop h = .ok { s with
      outputs := mapDelete s.outputs h,
      heap := Function.update s.heap h (s.heap h).shut } := by
  simp [Stream.drop, Chan.close, ho]

theorem dropAll_open (l : List Handle) :
    ∀ s : Stream, l.Nodup → (∀ h ∈ l, (s.heap h).closed = false) →
      Stream.dropAll l s = .ok { s with
        outputs := s.outputs.filter (fun h => decide (h ∉ l)),
        heap := shutHeap l s.heap } := by
  induction l with
  | nil =>
    intro s _ _
    cases s
    simp only [Stream.dropAll]
    congr 2
    simp
  | cons h hs ih =>
    intro s hnd hopen
    have hh : h ∉ hs := (List.nodup_cons.mp hnd).1
    have hnd2 : hs.Nodup := (List.nodup_cons.mp hnd).2
    have hne : ∀ x ∈ hs, x ≠ h := fun x hx hxe => hh (hxe ▸ hx)
    rw [Stream.dropAll, drop_open s h (hopen h (List.mem_cons_self h hs))]
    simp only
    rw [ih _ hnd2 (by
      intro x hx
      simp only [Function.update_noteq (hne x hx)]
      exact hopen x (List.mem_cons_of_mem h hx))]
    congr 1
    have hheap : shutHeap hs (Function.update s.heap h (s.heap h).shut)
        = shutHeap (h :: hs) s.heap := by
      funext x
      by_cases hx : x = h
      · subst hx
        simp [shutHeap, hh]
      · by_cases hxs : x ∈ hs <;> simp [shutHeap, hx, hxs, Function.update_noteq hx]
    have houts : (mapDelete s.outputs h).filter (fun x => decide (x ∉ hs))
        = s.outputs.filter (fun x => decide (x ∉ h :: hs)) := by
      unfold mapDelete
      rw [List.filter_filter]
      apply List.filter_congr
      intro x _
      by_cases hx : x = h <;> simp [hx]
    simp only [Stream.mk.injEq, true_and, and_true]
    exact ⟨houts, hheap⟩

theorem closeAll_open (s : Stream) (hwf : s.WF) :
    s.closeAll = .ok { s with
      outputs := [], heap := shutHeap s.outputs s.heap, finished := true } := by
  unfold Stream.closeAll
  rw [dropAll_open s.outputs s hwf.1 hwf.2]
  simp only [Except.ok.injEq, Stream.mk.injEq, true_and, and_true]
  rw [List.filter_eq_nil_iff]
  intro a ha
  simp [ha]

theorem passChan_open (m : Msg) (c : Chan) (hr : c.ready = true) (ho : c.closed = false) :
    (passChan m c).closed = false := by
  unfold passChan Chan.accept
  rw [if_pos hr]
  split <;> exact ho

theorem dispatch_WF (s : Stream) (m : Msg) (hwf : s.WF) :
    ∃ s1, s.dispatch m = .ok s1 ∧ s1.WF ∧ s1.Broadcast = s.Broadcast ∧
      s1.inflight = s.inflight ∧ s1.finished = s.finished := by
  refine ⟨_, dispatch_open s m hwf, ⟨?_, ?_⟩, rfl, rfl, rfl⟩
  · exact hwf.1.filter _
  · intro h hh
    simp only [passOutputs, List.mem_filter] at hh
    obtain ⟨hmem, hnf⟩ := hh
    have hf : (s.heap h).ready = true := by simpa [hmem] using hnf
    simp only [passHeap, hmem, if_true]
    exact passChan_open m _ hf (hwf.2 h hmem)

theorem deliver_ok_open (m : Msg) (s s1 : Stream) (h : Handle)
    (hs : s.deliver m h = .ok s1) : (s.heap h).closed = false := by
  cases hc : (s.heap h).closed with
  | false => rfl
  | true => simp [Stream.deliver, Chan.trySend, hc] at hs

theorem deliverAll_ok_open (m : Msg) (l : List Handle) :
    ∀ s s1 : Stream, l.Nodup → Stream.deliverAll m l s = .ok s1 →
      ∀ h ∈ l, (s.heap h).closed = false := by
  induction l with
  | nil => intro s s1 _ _ h hh; cases hh
  | cons k ks ih =>
    intro s s1 hnd hs h hh
    have hk : k ∉ ks := (List.nodup_cons.mp hnd).1
    rw [Stream.deliverAll] at hs
    cases hd : s.deliver m k with
    | error e => simp [hd] at hs
    | ok s2 =>
      have ho := deliver_ok_open m s s2 k hd
      rcases List.mem_cons.mp hh with rfl | hmem
      · exact ho
      · simp only [hd] at hs
        have h2 := ih s2 s1 (List.nodup_cons.mp hnd).2 hs h hmem
        rw [deliver_open m s k ho] at hd
        have hne : h ≠ k := fun e => hk (e ▸ hmem)
        simp only [Except.ok.injEq] at hd
        rw [← hd] at h2
        simpa [Function.update_noteq hne] using h2

theorem dispatch_ok_eq (s s1 : Stream) (m : Msg) (hnd : s.outputs.Nodup)
    (hs : s.dispatch m = .ok s1) :
    s1 = { s with
      outputs := passOutputs s.outputs s.heap s.outputs,
      heap := passHeap m s.outputs s.heap } := by
  have hopen := deliverAll_ok_open m s.outputs s s1 hnd hs
  have := dispatch_open s m ⟨hnd, hopen⟩
  rw [hs] at this
  exact Except.ok.inj this

theorem drop_ok_open (s s1 : Stream) (h : Handle) (hs : s.drop h = .ok s1) :
    (s.heap h).closed = false := by
  cases hc : (s.heap h).closed with
  | false => rfl
  | true => simp [Stream.drop, Chan.close, hc] at hs

/-- The closing loop returns only on a key list without repetition whose channels are all
open: a repeated or closed key makes the second `close` panic. -/
theorem dropAll_ok_open (l : List Handle) :
    ∀ s s1 : Stream, Stream.dropAll l s = .ok s1 →
      l.Nodup ∧ ∀ h ∈ l, (s.heap h).closed = false := by
  induction l with
  | nil => intro s s1 _; exact ⟨List.nodup_nil, fun h hh => by cases hh⟩
  | cons k ks ih =>
    intro s s1 hs
    rw [Stream.dropAll] at hs
    cases hd : s.drop k with
    | error e => simp [hd] at hs
    | ok s2 =>
      simp only [hd] at hs
      have ho := drop_ok_open s s2 k hd
      obtain ⟨hnd, hop⟩ := ih s2 s1 hs
      rw [drop_open s k ho] at hd
      simp only [Except.ok.injEq] at hd
      subst hd
      have hk : k ∉ ks := by
        intro hmem
        have := hop k hmem
        simp [Chan.shut] at this
      refine ⟨List.nodup_cons.mpr ⟨hk, hnd⟩, ?_⟩
      intro h hh
      rcases List.mem_cons.mp hh with rfl | hmem
      · exact ho
      · have hne : h ≠ k := fun e => hk (e ▸ hmem)
        simpa [Function.update_noteq hne] using hop h hmem

theorem closeAll_ok_eq (s s1 : Stream) (hs : s.closeAll = .ok s1) :
    s.WF ∧ s1 = { s with
      outputs := [], heap := shutHeap s.outputs s.heap, finished := true } := by
  have hwf : s.WF := by
    unfold Stream.closeAll at hs
    cases hd : Stream.dropAll s.outputs s with
    | error e => simp [hd] at hs
    | ok s2 => exact dropAll_ok_open s.outputs s s2 hd
  refine ⟨hwf, ?_⟩
  have := closeAll_open s hwf
  rw [hs] at this
  exact Except.ok.inj this

theorem accept_sent (c : Chan) (m : Msg) : (c.accept m).sent = c.sent ++ [m] := by
  unfold Chan.accept
  split <;> rfl

theorem recv_keeps (c : Chan) :
    c.recv.2.sent = c.sent ∧ c.recv.2.closed = c.closed ∧ c.recv.2.closes = c.closes := by
  unfold Chan.recv
  cases c.buf with
  | nil =>
    cases hc : c.closed with
    | false => simp
    | true => simp [hc]
  | cons m rest => simp

theorem publish_ok (s s1 : Stream) (m : Msg) (hs : s.Publish m = .ok s1) :
    s1 = { s with Broadcast := { s.Broadcast with buf := s.Broadcast.buf ++ [m] } } := by
  unfold Stream.Publish at hs
  by_cases hc : s.Broadcast.closed = true
  · simp [hc] at hs
  · rw [if_neg hc] at hs
    by_cases hl : s.Broadcast.buf.length < s.Broadcast.cap
    · rw [if_pos hl] at hs
      exact (Except.ok.inj hs).symm
    · simp [hl] at hs

theorem close_ok (s s1 : Stream) (hs : s.Close = .ok s1) :
    s1 = { s with Broadcast := { s.Broadcast with closed := true } } := by
  unfold Stream.Close at hs
  by_cases hc : s.Broadcast.closed = true
  · simp [hc] at hs
  · rw [if_neg hc] at hs
    exact (Except.ok.inj hs).symm

theorem unregister_ok (s s1 : Stream) (k : Handle) (hs : s.Unregister k = .ok s1) :
    (k ∉ s.outputs ∧ s1 = s) ∨
    (k ∈ s.outputs ∧ (s.heap k).closed = false ∧
      s1 = { s with outputs := mapDelete s.outputs k,
                    heap := Function.update s.heap k (s.heap k).shut }) := by
  unfold Stream.Unregister at hs
  by_cases hk : k ∈ s.outputs
  · cases hc : (s.heap k).closed with
    | true => simp [hk, hc, Chan.close] at hs
    | false =>
      simp only [hk, hc, Chan.close, if_true, Bool.false_eq_true, if_false,
        Except.ok.injEq] at hs
      exact Or.inr ⟨hk, rfl, hs.symm⟩
  · simp only [hk, if_false, Except.ok.injEq] at hs
    exact Or.inl ⟨hk, hs.symm⟩

theorem runTake_ok (s s1 : Stream) (hs : s.runTake = .ok s1) :
    ∃ m rest, s.finished = false ∧ s.inflight = none ∧ s.Broadcast.buf = m :: rest ∧
      s1 = { s with Broadcast := { s.Broadcast with buf := rest }, inflight := some m } := by
  unfold Stream.runTake at hs
  by_cases hf : s.finished = true
  · simp [hf] at hs
  · rw [if_neg hf] at hs
    have hi : s.inflight = none := by
      cases hi : s.inflight with
      | none => rfl
      | some x => simp [hi] at hs
    cases hb : s.Broadcast.buf with
    | nil => simp [hi, hb] at hs
    | cons m rest =>
      simp only [hi, hb, Except.ok.injEq] at hs
      exact ⟨m, rest, by simpa using hf, hi, rfl, hs.symm⟩

theorem runPass_ok (s s1 : Stream) (hs : s.runPass = .ok s1) :
    ∃ m, s.finished = false ∧ s.inflight = some m ∧
      Stream.dispatch { s with inflight := none } m = .ok s1 := by
  unfold Stream.runPass at hs
  by_cases hf : s.finished = true
  · simp [hf] at hs
  · rw [if_neg hf] at hs
    cases hi : s.inflight with
    | none => simp [hi] at hs
    | some m =>
      simp only [hi] at hs
      exact ⟨m, by simpa using hf, rfl, hs⟩

theorem runExit_ok (s s1 : Stream) (hs : s.runExit = .ok s1) :
    s.finished = false ∧ s.inflight = none ∧ s.Broadcast.buf = [] ∧
      s.Broadcast.closed = true ∧ s.closeAll = .ok s1 := by
  unfold Stream.runExit at hs
  by_cases hf : s.finished = true
  · simp [hf] at hs
  · rw [if_neg hf] at hs
    have hi : s.inflight = none := by
      cases hi : s.inflight with
      | none => rfl
      | some x => simp [hi] at hs
    have hb : s.Broadcast.buf = [] := by
      cases hb : s.Broadcast.buf with
      | nil => rfl
      | cons m rest => simp [hi, hb] at hs
    simp only [hi, hb] at hs
    by_cases hc : s.Broadcast.closed = true
    · rw [if_pos hc] at hs
      exact ⟨by simpa using hf, hi, hb, hc, hs⟩
    · simp [hc] at hs

theorem step_facts (s s1 : Stream) (op : Op) (h : Handle)
    (hnd : s.outputs.Nodup) (hs : s.step op = .ok s1) :
    s1.outputs.Nodup ∧
    s.inflight.toList ++ s.Broadcast.buf ++ op.pub
      = s.passing op ++ (s1.inflight.toList ++ s1.Broadcast.buf) ∧
    (∃ d, (s1.heap h).sent = (s.heap h).sent ++ d ∧ d.Sublist (s.passing op)) ∧
    (s.keeps h op = true → h ∈ s.outputs →
      h ∈ s1.outputs ∧ (s1.heap h).sent = (s.heap h).sent ++ s.passing op) := by
  cases op with
  | publish m =>
    have he := publish_ok s s1 m hs
    subst he
    refine ⟨hnd, by simp [Op.pub, Stream.passing], ⟨[], by simp, by simp⟩, ?_⟩
    intro _ hh
    exact ⟨hh, by simp [Stream.passing]⟩
  | register k =>
    simp only [Stream.step, Except.ok.injEq] at hs
    subst hs
    refine ⟨nodup_mapInsert _ _ hnd, by simp [Op.pub, Stream.passing, Stream.Register],
      ⟨[], by simp [Stream.Register], by simp⟩, ?_⟩
    intro _ hh
    exact ⟨(mem_mapInsert _ _ _).mpr (Or.inl hh), by simp [Stream.passing, Stream.Register]⟩
  | unregister k =>
    rcases unregister_ok s s1 k hs with ⟨_, he⟩ | ⟨_, _, he⟩
    · subst he
      refine ⟨hnd, by simp [Op.pub, Stream.passing], ⟨[], by simp, by simp⟩, ?_⟩
      intro _ hh
      exact ⟨hh, by simp [Stream.passing]⟩
    · subst he
      have hsent : ((Function.update s.heap k (s.heap k).shut) h).sent = (s.heap h).sent := by
        by_cases hhk : h = k
        · subst hhk; simp [Chan.shut]
        · simp [Function.update_noteq hhk]
      refine ⟨nodup_mapDelete _ _ hnd, by simp [Op.pub, Stream.passing],
        ⟨[], by simpa using hsent, by simp⟩, ?_⟩
      intro hkeep hh
      have hne : k ≠ h := by simpa [Stream.keeps] using hkeep
      exact ⟨(mem_mapDelete _ _ _).mpr ⟨hh, fun e => hne e.symm⟩,
        by simpa [Stream.passing] using hsent⟩
  | close =>
    have he := close_ok s s1 hs
    subst he
    refine ⟨hnd, by simp [Op.pub, Stream.passing], ⟨[], by simp, by simp⟩, ?_⟩
    intro _ hh
    exact ⟨hh, by simp [Stream.passing]⟩
  | take =>
    obtain ⟨m, rest, _, hi, hb, he⟩ := runTake_ok s s1 hs
    subst he
    refine ⟨hnd, by simp [Op.pub, Stream.passing, hi, hb], ⟨[], by simp, by simp⟩, ?_⟩
    intro _ hh
    exact ⟨hh, by simp [Stream.passing]⟩
  | pass =>
    obtain ⟨m, _, hi, hd⟩ := runPass_ok s s1 hs
    have he := dispatch_ok_eq { s with inflight := none } s1 m hnd hd
    subst he
    have htk : s.passing Op.pass = [m] := by simp [Stream.passing, hi]
    rw [htk]
    refine ⟨hnd.filter _, by simp [Op.pub, hi], ?_, ?_⟩
    · by_cases hh : h ∈ s.outputs
      · cases hfl : (s.heap h).ready with
        | false => exact ⟨[], by simp [passHeap, passChan, hh, hfl, Chan.shut], by simp⟩
        | true =>
          exact ⟨[m], by simp [passHeap, passChan, hh, hfl, accept_sent],
            List.Sublist.refl _⟩
      · exact ⟨[], by simp [passHeap, hh], by simp⟩
    · intro hkeep hh
      have hfl : (s.heap h).ready = true := by
        simpa [Stream.keeps, Chan.ready] using hkeep
      exact ⟨by simp [passOutputs, hh, hfl],
        by simp [passHeap, passChan, hh, hfl, accept_sent]⟩
  | finish =>
    obtain ⟨_, hi, hb, _, hca⟩ := runExit_ok s s1 hs
    obtain ⟨_, he⟩ := closeAll_ok_eq s s1 hca
    subst he
    refine ⟨List.nodup_nil, by simp [Op.pub, Stream.passing, hi, hb], ⟨[], ?_, by simp⟩, ?_⟩
    · by_cases hh : h ∈ s.outputs <;> simp [shutHeap, hh, Chan.shut]
    · intro hkeep
      simp [Stream.keeps] at hkeep
  | recv k =>
    simp only [Stream.step, Except.ok.injEq] at hs
    subst hs
    have hsent2 : ((s.consume k).heap h).sent = (s.heap h).sent := by
      unfold Stream.consume
      by_cases hhk : h = k
      · subst hhk; simp [(recv_keeps (s.heap h)).1]
      · simp [Function.update_noteq hhk]
    refine ⟨hnd, by simp [Op.pub, Stream.passing, Stream.consume],
      ⟨[], by simpa using hsent2, by simp⟩, ?_⟩
    intro _ hh
    exact ⟨hh, by simpa [Stream.passing] using hsent2⟩

theorem exec_facts (h : Handle) (ops : List Op) :
    ∀ s s2 : Stream, s.outputs.Nodup → s.exec ops = .ok s2 →
      s.dispatched ops ++ (s2.inflight.toList ++ s2.Broadcast.buf)
        = s.inflight.toList ++ s.Broadcast.buf ++ published ops ∧
      (∃ d, (s2.heap h).sent = (s.heap h).sent ++ d ∧ d.Sublist (s.dispatched ops)) ∧
      (s.healthy h ops = true → h ∈ s.outputs →
        h ∈ s2.outputs ∧ (s2.heap h).sent = (s.heap h).sent ++ s.dispatched ops) := by
  induction ops with
  | nil =>
    intro s s2 _ hs
    simp only [Stream.exec, Except.ok.injEq] at hs
    subst hs
    refine ⟨by simp [Stream.dispatched, published], ⟨[], by simp, by simp⟩, ?_⟩
    intro _ hh
    exact ⟨hh, by simp [Stream.dispatched]⟩
  | cons op ops ih =>
    intro s s2 hnd hs
    rw [Stream.exec] at hs
    cases hst : s.step op with
    | error e => simp [hst] at hs
    | ok s1 =>
      simp only [hst] at hs
      obtain ⟨a, b, ⟨d0, c1, c2⟩, d⟩ := step_facts s s1 op h hnd hst
      obtain ⟨i1, ⟨d1, i2, i3⟩, i4⟩ := ih s1 s2 a hs
      have hdis : s.dispatched (op :: ops) = s.passing op ++ s1.dispatched ops := by
        simp [Stream.dispatched, hst]
      rw [hdis]
      refine ⟨?_, ⟨d0 ++ d1, ?_, c2.append i3⟩, ?_⟩
      · rw [List.append_assoc, i1]
        have : published (op :: ops) = op.pub ++ published ops := rfl
        rw [this, ← List.append_assoc _ op.pub, b]
        simp [List.append_assoc]
      · rw [i2, c1, List.append_assoc]
      · intro hhl hh
        simp only [Stream.healthy, hst, Bool.and_eq_true] at hhl
        obtain ⟨k1, k2⟩ := d hhl.1 hh
        obtain ⟨k3, k4⟩ := i4 hhl.2 k1
        exact ⟨k3, by rw [k4, k2, List.append_assoc]⟩

theorem step_after_finished (s s1 : Stream) (op : Op) (h : Handle)
    (hfin : s.finished = true) (hs : s.step op = .ok s1) (hne : op ≠ Op.unregister h)
    (hm : h ∈ s.outputs) (ho : (s.heap h).closed = false) :
    s1.finished = true ∧ h ∈ s1.outputs ∧ (s1.heap h).closed = false ∧
      (s1.heap h).closes = (s.heap h).closes := by
  cases op with
  | publish m =>
    have he := publish_ok s s1 m hs
    subst he
    exact ⟨hfin, hm, ho, rfl⟩
  | register k =>
    simp only [Stream.step, Except.ok.injEq] at hs
    subst hs
    exact ⟨hfin, (mem_mapInsert _ _ _).mpr (Or.inl hm), ho, rfl⟩
  | unregister k =>
    have hkh : h ≠ k := fun e => hne (e ▸ rfl)
    rcases unregister_ok s s1 k hs with ⟨_, he⟩ | ⟨_, _, he⟩
    · subst he
      exact ⟨hfin, hm, ho, rfl⟩
    · subst he
      refine ⟨hfin, (mem_mapDelete _ _ _).mpr ⟨hm, hkh⟩, ?_, ?_⟩
      · simpa [Function.update_noteq hkh] using ho
      · simp [Function.update_noteq hkh]
  | close =>
    have he := close_ok s s1 hs
    subst he
    exact ⟨hfin, hm, ho, rfl⟩
  | take => simp [Stream.step, Stream.runTake, hfin] at hs
  | pass => simp [Stream.step, Stream.runPass, hfin] at hs
  | finish => simp [Stream.step, Stream.runExit, hfin] at hs
  | recv k =>
    simp only [Stream.step, Except.ok.injEq] at hs
    subst hs
    unfold Stream.consume
    refine ⟨hfin, hm, ?_, ?_⟩
    · by_cases hhk : h = k
      · subst hhk; simpa [(recv_keeps (s.heap h)).2.1] using ho
      · simpa [Function.update_noteq hhk] using ho
    · by_cases hhk : h = k
      · subst hhk; simp [(recv_keeps (s.heap h)).2.2]
      · simp [Function.update_noteq hhk]

theorem exec_after_finished (h : Handle) (ops : List Op) :
    ∀ s s2 : Stream, s.finished = true → s.exec ops = .ok s2 → Op.unregister h ∉ ops →
      h ∈ s.outputs → (s.heap h).closed = false →
      s2.finished = true ∧ h ∈ s2.outputs ∧ (s2.heap h).closed = false ∧
        (s2.heap h).closes = (s.heap h).closes := by
  induction ops with
  | nil =>
    intro s s2 hfin hs _ hm ho
    simp only [Stream.exec, Except.ok.injEq] at hs
    subst hs
    exact ⟨hfin, hm, ho, rfl⟩
  | cons op ops ih =>
    intro s s2 hfin hs hno hm ho
    rw [Stream.exec] at hs
    cases hst : s.step op with
    | error e => simp [hst] at hs
    | ok s1 =>
      simp only [hst] at hs
      have hne : op ≠ Op.unregister h := fun e => hno (e ▸ List.mem_cons_self _ _)
      obtain ⟨a, b, c, d⟩ := step_after_finished s s1 op h hfin hst hne hm ho
      obtain ⟨a2, b2, c2, d2⟩ :=
        ih s1 s2 a hs (fun hx => hno (List.mem_cons_of_mem _ hx)) b c
      exact ⟨a2, b2, c2, d2.trans d⟩

theorem New_WF (heap : Handle → Chan) : (Stream.New heap).WF := by
  refine ⟨List.nodup_nil, ?_⟩
  intro h hh
  cases hh

/-- The Hub invariant is inductive: every step that returns keeps it, provided the handles
given to `Register` are open channels. -/
theorem step_WF (s s1 : Stream) (op : Op) (hwf : s.WF)
    (hreg : ∀ k, op = Op.register k → (s.heap k).closed = false)
    (hs : s.step op = .ok s1) : s1.WF := by
  cases op with
  | publish m =>
    have he := publish_ok s s1 m hs
    subst he
    exact hwf
  | register k =>
    simp only [Stream.step, Except.ok.injEq] at hs
    subst hs
    refine ⟨nodup_mapInsert _ _ hwf.1, ?_⟩
    intro h hh
    rcases (mem_mapInsert _ _ _).mp hh with hm | rfl
    · exact hwf.2 h hm
    · exact hreg h rfl
  | unregister k =>
    rcases unregister_ok s s1 k hs with ⟨_, he⟩ | ⟨_, _, he⟩
    · subst he
      exact hwf
    · subst he
      refine ⟨nodup_mapDelete _ _ hwf.1, ?_⟩
      intro h hh
      obtain ⟨hm, hne⟩ := (mem_mapDelete _ _ _).mp hh
      simpa [Function.update_noteq hne] using hwf.2 h hm
  | close =>
    have he := close_ok s s1 hs
    subst he
    exact hwf
  | take =>
    obtain ⟨m, rest, _, _, _, he⟩ := runTake_ok s s1 hs
    subst he
    exact hwf
  | pass =>
    obtain ⟨m, _, _, hd⟩ := runPass_ok s s1 hs
    obtain ⟨s2, h1, h2, _, _, _⟩ := dispatch_WF { s with inflight := none } m hwf
    rw [h1] at hd
    exact (Except.ok.inj hd) ▸ h2
  | finish =>
    obtain ⟨_, _, _, _, hca⟩ := runExit_ok s s1 hs
    obtain ⟨_, he⟩ := closeAll_ok_eq s s1 hca
    subst he
    exact ⟨List.nodup_nil, fun h hh => by cases hh⟩
  | recv k =>
    simp only [Stream.step, Except.ok.injEq] at hs
    subst hs
    refine ⟨hwf.1, ?_⟩
    intro h hh
    unfold Stream.consume
    by_cases hhk : h = k
    · subst hhk; simpa [(recv_keeps (s.heap h)).2.1] using hwf.2 h hh
    · simpa [Function.update_noteq hhk] using hwf.2 h hh

theorem runPass_WF (s : Stream) (m : Msg) (hwf : s.WF) (hf : s.finished = false)
    (hi : s.inflight = some m) :
    ∃ s1, s.runPass = .ok s1 ∧ s1.WF ∧ s1.finished = false ∧ s1.inflight = none ∧
      s1.Broadcast = s.Broadcast := by
  obtain ⟨s1, h1, h2, h3, h4, h5⟩ := dispatch_WF { s with inflight := none } m hwf
  refine ⟨s1, ?_, h2, h5.trans hf, h4, h3⟩
  unfold Stream.runPass
  rw [if_neg (by simp [hf])]
  simp only [hi]
  exact h1

theorem runTurn_WF (s : Stream) (hwf : s.WF) (hf : s.finished = false)
    (hne : ¬ (s.inflight = none ∧ s.Broadcast.buf = [])) :
    ∃ s1, s.runTurn = .ok s1 ∧ s1.WF ∧ s1.finished = false ∧ s1.inflight = none ∧
      s1.Broadcast.closed = s.Broadcast.closed ∧
      s1.Broadcast.buf.length + 1 = s.inflight.toList.length + s.Broadcast.buf.length := by
  cases hi : s.inflight with
  | some m =>
    obtain ⟨s1, h1, h2, h3, h4, h5⟩ := runPass_WF s m hwf hf hi
    refine ⟨s1, ?_, h2, h3, h4, by rw [h5], ?_⟩
    · simp only [Stream.runTurn, hi]
      exact h1
    · rw [h5]; simp; omega
  | none =>
    cases hb : s.Broadcast.buf with
    | nil => exact absurd ⟨hi, hb⟩ hne
    | cons m rest =>
      have ht : s.runTake = .ok { s with
          Broadcast := { s.Broadcast with buf := rest }, inflight := some m } := by
        unfold Stream.runTake
        rw [if_neg (by simp [hf])]
        simp only [hi, hb]
      obtain ⟨s1, h1, h2, h3, h4, h5⟩ :=
        runPass_WF { s with Broadcast := { s.Broadcast with buf := rest }, inflight := some m }
          m hwf hf rfl
      refine ⟨s1, ?_, h2, h3, h4, by rw [h5], ?_⟩
      · simp only [Stream.runTurn, hi, ht]
        exact h1
      · rw [h5]; simp

theorem drain_returns (n : Nat) :
    ∀ s : Stream, s.WF → s.finished = false →
      s.inflight.toList.length + s.Broadcast.buf.length ≤ n →
      ∃ s1, Stream.drain n s = .ok s1 ∧ s1.WF ∧ s1.finished = false ∧ s1.inflight = none ∧
        s1.Broadcast.buf = [] ∧ s1.Broadcast.closed = s.Broadcast.closed := by
  induction n with
  | zero =>
    intro s hwf hf hlen
    have hb : s.Broadcast.buf = [] := List.length_eq_zero.mp (by omega)
    have hi : s.inflight = none := by
      cases hi : s.inflight with
      | none => rfl
      | some m => simp [hi] at hlen
    exact ⟨s, rfl, hwf, hf, hi, hb, rfl⟩
  | succ n ih =>
    intro s hwf hf hlen
    by_cases hne : s.inflight = none ∧ s.Broadcast.buf = []
    · refine ⟨s, ?_, hwf, hf, hne.1, hne.2, rfl⟩
      simp [Stream.drain, hne.1, hne.2]
    · obtain ⟨s1, h1, h2, h3, h4, h5, h6⟩ := runTurn_WF s hwf hf hne
      have hlen1 : s1.inflight.toList.length + s1.Broadcast.buf.length ≤ n := by
        rw [h4]; simp; omega
      obtain ⟨s2, e1, e2, e3, e4, e5, e6⟩ := ih s1 h2 h3 hlen1
      have hd : Stream.drain (n + 1) s = Stream.drain n s1 := by
        cases hi : s.inflight with
        | some m => simp [Stream.drain, h1, hi]
        | none =>
          cases hb : s.Broadcast.buf with
          | nil => exact absurd ⟨hi, hb⟩ hne
          | cons m rest => simp [Stream.drain, h1, hi, hb]
      exact ⟨s2, hd.trans e1, e2, e3, e4, e5, e6.trans h5⟩

theorem runExit_spec (s s2 : Stream) (hs : s.runExit = .ok s2) :
    s.Broadcast.closed = true ∧ s.Broadcast.buf = [] ∧ s.inflight = none ∧
    s2.outputs = [] ∧ s2.finished = true ∧
    (∀ h ∈ s.outputs, (s.heap h).closed = false ∧
      s2.heap h = { s.heap h with
        closed := true, parked := 0, closes := (s.heap h).closes + 1 }) ∧
    (∀ h, h ∉ s.outputs → s2.heap h = s.heap h) := by
  obtain ⟨_, hi, hb, hc, hca⟩ := runExit_ok s s2 hs
  obtain ⟨hwf, he⟩ := closeAll_ok_eq s s2 hca
  subst he
  refine ⟨hc, hb, hi, rfl, rfl, ?_, ?_⟩
  · intro h hh
    exact ⟨hwf.2 h hh, by simp [shutHeap, hh, Chan.shut]⟩
  · intro h hh
    simp [shutHeap, hh]

/-- C1 as stated fails on two Hub states the code can be in. (1) After `Register 0`,
`Unregister 0`, `Register 0` handle 0 is a member, its queue is not full, and it is closed:
the pass panics on the send instead of appending the message. (2) An unbuffered member with a
receiver parked on it has a full queue (capacity 0), yet the pass hands it the message and
keeps it as an open member. -/
theorem dispatch_pass_not_for_every_state :
    (∃ s, hubFresh.exec [Op.register 0, Op.unregister 0, Op.register 0] = .ok s ∧
      0 ∈ s.outputs ∧ (s.heap 0).buf.length < (s.heap 0).cap ∧
      s.dispatch 5 = .error .panic) ∧
    (∃ s s1, hubUnbuffered.exec [Op.register 0, Op.recv 0] = .ok s ∧
      0 ∈ s.outputs ∧ (s.heap 0).cap ≤ (s.heap 0).buf.length ∧
      s.dispatch 5 = .ok s1 ∧ (s1.heap 0).sent = [5] ∧ 0 ∈ s1.outputs ∧
      (s1.heap 0).closed = false) :=
  ⟨⟨_, rfl, by decide, by decide, rfl⟩,
    ⟨_, _, rfl, by decide, by decide, rfl, by decide, by decide, by decide⟩⟩

/-- C1, amended. On a Hub state whose members are open channels, one dispatch pass returns
and treats each member on its own. A member with a receiver parked on it has the message
handed to that receiver once and stays a member; a member with nobody parked and a free slot
has the message appended once to its queue and stays a member; a member with nobody parked
and a full queue gets nothing, is removed from the set and is closed once. Channels outside
the set are untouched, and the outcome for a member is the same in any other such Hub state
in which that member's channel is in the same state, whatever the other members are. -/
theorem dispatch_pass_per_member (s : Stream) (m : Msg) (hwf : s.WF) :
    ∃ s1, s.dispatch m = .ok s1 ∧
      (∀ h ∈ s.outputs, 0 < (s.heap h).parked →
          s1.heap h = { s.heap h with
            parked := (s.heap h).parked - 1, sent := (s.heap h).sent ++ [m] } ∧
          h ∈ s1.outputs) ∧
      (∀ h ∈ s.outputs, (s.heap h).parked = 0 → (s.heap h).buf.length < (s.heap h).cap →
          s1.heap h = { s.heap h with
            buf := (s.heap h).buf ++ [m], sent := (s.heap h).sent ++ [m] } ∧
          h ∈ s1.outputs) ∧
      (∀ h ∈ s.outputs, (s.heap h).parked = 0 → (s.heap h).cap ≤ (s.heap h).buf.length →
          s1.heap h = { s.heap h with
            closed := true, parked := 0, closes := (s.heap h).closes + 1 } ∧
          h ∉ s1.outputs) ∧
      (∀ h, h ∉ s.outputs → s1.heap h = s.heap h ∧ h ∉ s1.outputs) ∧
      (∀ t : Stream, t.WF → ∀ h ∈ s.outputs, h ∈ t.outputs → t.heap h = s.heap h →
          ∃ t1, t.dispatch m = .ok t1 ∧ t1.heap h = s1.heap h ∧
            (h ∈ t1.outputs ↔ h ∈ s1.outputs)) := by
  refine ⟨_, dispatch_open s m hwf, ?_, ?_, ?_, ?_, ?_⟩
  · intro h hh hp
    simp [passHeap, passOutputs, passChan, Chan.ready, Chan.accept, hh, hp]
  · intro h hh hp hl
    simp [passHeap, passOutputs, passChan, Chan.ready, Chan.accept, hh, hp, hl]
  · intro h hh hp hl
    have hl2 : ¬ (s.heap h).buf.length < (s.heap h).cap := by omega
    simp [passHeap, passOutputs, passChan, Chan.ready, Chan.shut, hh, hp, hl2]
  · intro h hh
    simp [passHeap, passOutputs, hh]
  · intro t twf h hs ht heq
    refine ⟨_, dispatch_open t m twf, ?_, ?_⟩
    · simp [passHeap, hs, ht, heq]
    · simp [passOutputs, hs, ht, heq]

/-- Instance of `dispatch_pass_per_member` on a Hub with a member with a free slot, a full
member and an unbuffered member with a parked receiver, with the outcome evaluated. -/
theorem dispatch_pass_per_member_witness :
    hubThree.WF ∧
    (∃ s1, hubThree.dispatch 5 = .ok s1 ∧
      (∀ h ∈ hubThree.outputs, 0 < (hubThree.heap h).parked →
          s1.heap h = { hubThree.heap h with
            parked := (hubThree.heap h).parked - 1, sent := (hubThree.heap h).sent ++ [5] } ∧
          h ∈ s1.outputs) ∧
      (∀ h ∈ hubThree.outputs, (hubThree.heap h).parked = 0 →
          (hubThree.heap h).buf.length < (hubThree.heap h).cap →
          s1.heap h = { hubThree.heap h with
            buf := (hubThree.heap h).buf ++ [5], sent := (hubThree.heap h).sent ++ [5] } ∧
          h ∈ s1.outputs) ∧
      (∀ h ∈ hubThree.outputs, (hubThree.heap h).parked = 0 →
          (hubThree.heap h).cap ≤ (hubThree.heap h).buf.length →
          s1.heap h = { hubThree.heap h with
            closed := true, parked := 0, closes := (hubThree.heap h).closes + 1 } ∧
          h ∉ s1.outputs) ∧
      (∀ h, h ∉ hubThree.outputs → s1.heap h = hubThree.heap h ∧ h ∉ s1.outputs) ∧
      (∀ t : Stream, t.WF → ∀ h ∈ hubThree.outputs, h ∈ t.outputs →
          t.heap h = hubThree.heap h →
          ∃ t1, t.dispatch 5 = .ok t1 ∧ t1.heap h = s1.heap h ∧
            (h ∈ t1.outputs ↔ h ∈ s1.outputs))) ∧
    (∃ s1, hubThree.dispatch 5 = .ok s1 ∧ s1.outputs = [0, 2] ∧
      s1.heap 0 = { cap := 1, buf := [5], closed := false, parked := 0, sent := [5],
                    closes := 0 } ∧
      s1.heap 1 = { cap := 1, buf := [7], closed := true, parked := 0, sent := [7],
                    closes := 1 } ∧
      s1.heap 2 = { cap := 0, buf := [], closed := false, parked := 0, sent := [5],
                    closes := 0 }) :=
  ⟨by decide, dispatch_pass_per_member hubThree 5 (by decide),
    ⟨_, rfl, by decide, by decide, by decide, by decide⟩⟩

/-- C4 as stated fails: after `Register 0`, `Unregister 0`, `Register 0` handle 0 is a member
that was already closed once, and `Unregister 0` closes it a second time, which panics. -/
theorem unregister_double_close_after_reregister :
    ∃ s, hubFresh.exec [Op.register 0, Op.unregister 0, Op.register 0] = .ok s ∧
      0 ∈ s.outputs ∧ (s.heap 0).closed = true ∧ (s.heap 0).closes = 1 ∧
      s.Unregister 0 = .error .panic :=
  ⟨_, rfl, by decide, by decide, by decide, rfl⟩

/-- C4, amended. On a Hub state whose members are open channels, `Unregister` of a member
returns, removes it and closes it once (closed flag set, close counter one higher, parked
receivers released), leaving every other handle as it was; `Unregister` of a non-member
returns the state unchanged, so it closes nothing. A handle is a non-member after its own
`Unregister`, after a dispatch pass that found it full with nobody parked, and after the
closing loop of `run`; in each case a further `Unregister` changes nothing, and `Unregister`
applied twice equals `Unregister` applied once. -/
theorem unregister_closes_member_once (s : Stream) (h : Handle) (hwf : s.WF) :
    (h ∈ s.outputs →
        s.Unregister h = .ok { s with
          outputs := s.outputs.filter (fun x => decide (x ≠ h)),
          heap := Function.update s.heap h
            { s.heap h with
              closed := true, parked := 0, closes := (s.heap h).closes + 1 } }) ∧
    (h ∉ s.outputs → s.Unregister h = .ok s) ∧
    (∃ s1, s.Unregister h = .ok s1 ∧ h ∉ s1.outputs ∧
      (∀ k, k ≠ h → s1.heap k = s.heap k ∧ (k ∈ s1.outputs ↔ k ∈ s.outputs)) ∧
      s1.Unregister h = .ok s1) ∧
    (∀ m, h ∈ s.outputs → (s.heap h).parked = 0 → (s.heap h).cap ≤ (s.heap h).buf.length →
        ∃ s1, s.dispatch m = .ok s1 ∧ h ∉ s1.outputs ∧ s1.Unregister h = .ok s1) ∧
    (∃ s1, s.closeAll = .ok s1 ∧ h ∉ s1.outputs ∧ s1.Unregister h = .ok s1) ∧
    ((s.Unregister h).bind (fun s1 => s1.Unregister h) = s.Unregister h) := by
  have hmem : h ∈ s.outputs →
      s.Unregister h = .ok { s with
        outputs := s.outputs.filter (fun x => decide (x ≠ h)),
        heap := Function.update s.heap h
          { s.heap h with
            closed := true, parked := 0, closes := (s.heap h).closes + 1 } } := by
    intro hh
    simp [Stream.Unregister, hh, Chan.close, Chan.shut, mapDelete, hwf.2 h hh]
  have hnot : ∀ t : Stream, h ∉ t.outputs → t.Unregister h = .ok t := by
    intro t hh
    simp [Stream.Unregister, hh]
  have hgone : h ∉ s.outputs.filter (fun x => decide (x ≠ h)) := by simp
  refine ⟨hmem, hnot s, ?_, ?_, ?_, ?_⟩
  · by_cases hh : h ∈ s.outputs
    · refine ⟨_, hmem hh, hgone, ?_, hnot _ hgone⟩
      intro k hk
      simp [Function.update_noteq hk, hk]
    · exact ⟨s, hnot s hh, hh, fun k _ => ⟨rfl, Iff.rfl⟩, hnot s hh⟩
  · intro m hh hp hl
    have hl2 : ¬ (s.heap h).buf.length < (s.heap h).cap := by omega
    have hg : h ∉ passOutputs s.outputs s.heap s.outputs := by
      simp [passOutputs, Chan.ready, hh, hp, hl2]
    exact ⟨_, dispatch_open s m hwf, hg, hnot _ hg⟩
  · exact ⟨_, closeAll_open s hwf, by simp, hnot _ (by simp)⟩
  · by_cases hh : h ∈ s.outputs
    · rw [hmem hh]
      exact hnot _ hgone
    · rw [hnot s hh]
      exact hnot s hh

/-- Instance of `unregister_closes_member_once` on the full member of a Hub with three
members, with the outcome evaluated. -/
theorem unregister_closes_member_once_witness :
    hubThree.WF ∧
    ((1 ∈ hubThree.outputs →
        hubThree.Unregister 1 = .ok { hubThree with
          outputs := hubThree.outputs.filter (fun x => decide (x ≠ 1)),
          heap := Function.update hubThree.heap 1
            { hubThree.heap 1 with
              closed := true, parked := 0, closes := (hubThree.heap 1).closes + 1 } }) ∧
    (1 ∉ hubThree.outputs → hubThree.Unregister 1 = .ok hubThree) ∧
    (∃ s1, hubThree.Unregister 1 = .ok s1 ∧ 1 ∉ s1.outputs ∧
      (∀ k, k ≠ 1 → s1.heap k = hubThree.heap k ∧ (k ∈ s1.outputs ↔ k ∈ hubThree.outputs)) ∧
      s1.Unregister 1 = .ok s1) ∧
    (∀ m, 1 ∈ hubThree.outputs → (hubThree.heap 1).parked = 0 →
        (hubThree.heap 1).cap ≤ (hubThree.heap 1).buf.length →
        ∃ s1, hubThree.dispatch m = .ok s1 ∧ 1 ∉ s1.outputs ∧ s1.Unregister 1 = .ok s1) ∧
    (∃ s1, hubThree.closeAll = .ok s1 ∧ 1 ∉ s1.outputs ∧ s1.Unregister 1 = .ok s1) ∧
    ((hubThree.Unregister 1).bind (fun s1 => s1.Unregister 1) = hubThree.Unregister 1)) ∧
    (∃ s1, hubThree.Unregister 1 = .ok s1 ∧ s1.outputs = [0, 2] ∧
      s1.heap 1 = { cap := 1, buf := [7], closed := true, parked := 0, sent := [7],
                    closes := 1 } ∧
      s1.heap 2 = hubThree.heap 2) :=
  ⟨by decide, unregister_closes_member_once hubThree 1 (by decide),
    ⟨_, rfl, by decide, by decide, by decide⟩⟩

/-- C5. (1) Whenever the loop of `run` exits and the epilogue returns, in any Hub state, the
inbound queue was closed and drained, the consumer set is empty afterwards, every consumer
that was a member at that moment was open and is now closed, its close counter one higher,
and every other channel, among them the consumers removed earlier, is exactly as it was.
(2) When `run`, executed without interleaving, returns, it has drained the queued messages
and then made that exit, so (1) applies to the drained state. (3) On a Hub whose members are
open channels, with the inbound queue closed, `run` does return once given a turn for each
message still in flight or queued. -/
theorem hub_termination (s : Stream) (n : Nat) :
    (∀ s2, s.step Op.finish = .ok s2 →
      s.Broadcast.closed = true ∧ s.Broadcast.buf = [] ∧ s.inflight = none ∧
      s2.outputs = [] ∧ s2.finished = true ∧
      (∀ h ∈ s.outputs, (s.heap h).closed = false ∧
        s2.heap h = { s.heap h with
          closed := true, parked := 0, closes := (s.heap h).closes + 1 }) ∧
      (∀ h, h ∉ s.outputs → s2.heap h = s.heap h)) ∧
    (∀ s2, Stream.run n s = .ok s2 →
      ∃ s1, Stream.drain n s = .ok s1 ∧ s1.step Op.finish = .ok s2 ∧
        s1.Broadcast.closed = true ∧ s1.Broadcast.buf = [] ∧ s1.inflight = none ∧
        s2.outputs = [] ∧ s2.finished = true ∧
        (∀ h ∈ s1.outputs, (s1.heap h).closed = false ∧
          s2.heap h = { s1.heap h with
            closed := true, parked := 0, closes := (s1.heap h).closes + 1 }) ∧
        (∀ h, h ∉ s1.outputs → s2.heap h = s1.heap h)) ∧
    (s.WF → s.Broadcast.closed = true → s.finished = false →
      s.inflight.toList.length + s.Broadcast.buf.length ≤ n →
      ∃ s2, Stream.run n s = .ok s2) := by
  refine ⟨fun s2 hs => runExit_spec s s2 hs, ?_, ?_⟩
  · intro s2 hrun
    unfold Stream.run at hrun
    cases hd : Stream.drain n s with
    | error e => simp [hd] at hrun
    | ok s1 =>
      simp only [hd] at hrun
      exact ⟨s1, rfl, hrun, runExit_spec s1 s2 hrun⟩
  · intro hwf hc hf hn
    obtain ⟨s1, e1, e2, e3, e4, e5, e6⟩ := drain_returns n s hwf hf hn
    refine ⟨{ s1 with
      outputs := [], heap := shutHeap s1.outputs s1.heap, finished := true }, ?_⟩
    unfold Stream.run
    simp only [e1]
    unfold Stream.runExit
    rw [if_neg (by simp [e3])]
    simp only [e4, e5]
    rw [if_pos (e6.trans hc)]
    have hca := closeAll_open s1 e2
    rw [e4] at hca
    exact hca

/-- Instance of `hub_termination` on a closed Hub with one message in flight, one queued and
three members, with the outcome evaluated: the full member is dropped while draining and is
not closed again by the epilogue, the two others are closed by the epilogue. -/
theorem hub_termination_witness :
    hubClosing.WF ∧ hubClosing.Broadcast.closed = true ∧ hubClosing.finished = false ∧
    hubClosing.inflight.toList.length + hubClosing.Broadcast.buf.length ≤ 2 ∧
    Stream.run 2 hubClosing = .ok hubClosed ∧
    (∃ s2, Stream.run 2 hubClosing = .ok s2) ∧
    (∃ s1, Stream.drain 2 hubClosing = .ok s1 ∧ s1.step Op.finish = .ok hubClosed ∧
        s1.Broadcast.closed = true ∧ s1.Broadcast.buf = [] ∧ s1.inflight = none ∧
        hubClosed.outputs = [] ∧ hubClosed.finished = true ∧
        (∀ h ∈ s1.outputs, (s1.heap h).closed = false ∧
          hubClosed.heap h = { s1.heap h with
            closed := true, parked := 0, closes := (s1.heap h).closes + 1 }) ∧
        (∀ h, h ∉ s1.outputs → hubClosed.heap h = s1.heap h)) ∧
    (hubClosed.outputs = [] ∧ hubClosed.finished = true ∧
     hubClosed.heap 0 = { cap := 2, buf := [3, 4], closed := true, parked := 0,
                          sent := [3, 4], closes := 1 } ∧
     hubClosed.heap 1 = { cap := 1, buf := [7], closed := true, parked := 0, sent := [7],
                          closes := 1 } ∧
     hubClosed.heap 2 = { cap := 0, buf := [], closed := true, parked := 0, sent := [3, 4],
                          closes := 1 }) :=
  ⟨by decide, rfl, rfl, by decide, rfl,
    (hub_termination hubClosing 2).2.2 (by decide) rfl rfl (by decide),
    (hub_termination hubClosing 2).2.1 hubClosed rfl,
    by decide, by decide, by decide, by decide, by decide⟩

/-- C2. Take any Hub state, register consumer `h`, and run any sequence of steps along which
`h` stays registered (no `Unregister h`, no termination, and at every dispatch pass `h` has a
parked receiver or a free slot). Then `h` is still a member, and the messages delivered to
`h` since its registration are exactly the messages dispatched since then, which are a
prefix, in order and without gap or repetition, of: the message in flight at registration,
the messages queued at registration, the messages published afterwards. -/
theorem healthy_consumer_gets_dispatched_run (s s2 : Stream) (h : Handle) (ops : List Op)
    (hnd : s.outputs.Nodup) (hex : (s.Register h).exec ops = .ok s2)
    (hh : (s.Register h).healthy h ops = true) :
    h ∈ s2.outputs ∧
    (s2.heap h).sent = (s.heap h).sent ++ (s.Register h).dispatched ops ∧
    (s.Register h).dispatched ops ++ (s2.inflight.toList ++ s2.Broadcast.buf)
      = s.inflight.toList ++ s.Broadcast.buf ++ published ops := by
  obtain ⟨a, _, c⟩ := exec_facts h ops (s.Register h) s2 (nodup_mapInsert _ _ hnd) hex
  obtain ⟨c1, c2⟩ := c hh ((mem_mapInsert _ _ _).mpr (Or.inr rfl))
  exact ⟨c1, c2, a⟩

/-- Instance of `healthy_consumer_gets_dispatched_run`: consumer 0 registers while message 1
is in flight and message 2 is queued, reads once, and message 3 is published later; it is
delivered 1, 2, 3. -/
theorem healthy_consumer_gets_dispatched_run_witness :
    hubMidTurn.outputs.Nodup ∧
    (hubMidTurn.Register 0).exec
        [Op.pass, Op.take, Op.recv 0, Op.publish 3, Op.pass, Op.take, Op.pass]
      = .ok ((hubMidTurn.Register 0).after
        [Op.pass, Op.take, Op.recv 0, Op.publish 3, Op.pass, Op.take, Op.pass]) ∧
    (hubMidTurn.Register 0).healthy 0
        [Op.pass, Op.take, Op.recv 0, Op.publish 3, Op.pass, Op.take, Op.pass] = true ∧
    (0 ∈ ((hubMidTurn.Register 0).after
        [Op.pass, Op.take, Op.recv 0, Op.publish 3, Op.pass, Op.take, Op.pass]).outputs ∧
    (((hubMidTurn.Register 0).after
        [Op.pass, Op.take, Op.recv 0, Op.publish 3, Op.pass, Op.take, Op.pass]).heap 0).sent
      = (hubMidTurn.heap 0).sent ++ (hubMidTurn.Register 0).dispatched
        [Op.pass, Op.take, Op.recv 0, Op.publish 3, Op.pass, Op.take, Op.pass] ∧
    (hubMidTurn.Register 0).dispatched
        [Op.pass, Op.take, Op.recv 0, Op.publish 3, Op.pass, Op.take, Op.pass]
      ++ (((hubMidTurn.Register 0).after
        [Op.pass, Op.take, Op.recv 0, Op.publish 3, Op.pass, Op.take, Op.pass]).inflight.toList
        ++ ((hubMidTurn.Register 0).after
        [Op.pass, Op.take, Op.recv 0, Op.publish 3, Op.pass, Op.take, Op.pass]).Broadcast.buf)
      = hubMidTurn.inflight.toList ++ hubMidTurn.Broadcast.buf ++ published
        [Op.pass, Op.take, Op.recv 0, Op.publish 3, Op.pass, Op.take, Op.pass]) ∧
    ((hubMidTurn.Register 0).after
        [Op.pass, Op.take, Op.recv 0, Op.publish 3, Op.pass, Op.take, Op.pass]).heap 0
      = { cap := 16, buf := [2, 3], closed := false, parked := 0, sent := [1, 2, 3],
          closes := 0 } :=
  ⟨by decide, rfl, by decide,
    healthy_consumer_gets_dispatched_run hubMidTurn _ 0
      [Op.pass, Op.take, Op.recv 0, Op.publish 3, Op.pass, Op.take, Op.pass]
      (by decide) rfl (by decide),
    by decide⟩

set_option maxRecDepth 100000 in
/-- The example of C2, the order test: 1..100 published one at a time to one healthy
consumer that reads as it goes are delivered as exactly 1..100. -/
theorem hundred_in_order :
    (((hubFresh.Register 0).after
        ((List.range' 1 100).flatMap
          (fun i => [Op.publish i, Op.take, Op.pass, Op.recv 0]))).heap 0).sent
      = List.range' 1 100 := by
  decide

/-- C3 as stated fails: publish 1..5, register consumer 0, publish 6..10, and only then let
the dispatch loop run. `Publish` had returned for 1..5 before `Register`, yet consumer 0 is
delivered 1..10, not 6..10. -/
theorem late_register_gets_queued_messages :
    ∃ s2, hubFresh.exec (pubs [1, 2, 3, 4, 5] ++ [Op.register 0] ++ pubs [6, 7, 8, 9, 10]
        ++ turns 10) = .ok s2 ∧
      (s2.heap 0).sent = [1, 2, 3, 4, 5, 6, 7, 8, 9, 10] ∧
      (s2.heap 0).buf = [1, 2, 3, 4, 5, 6, 7, 8, 9, 10] ∧
      (s2.heap 0).sent ≠ [6, 7, 8, 9, 10] :=
  ⟨_, rfl, by decide, by decide, by decide⟩

/-- C3, amended. Take any Hub state, register consumer `h`, and run any sequence of steps.
The messages dispatched after the registration are a prefix of: the message in flight at
registration (taken off the inbound queue, its pass not yet run), the messages queued at
registration, the messages published afterwards. What `h` is delivered after its
registration is a subsequence of the messages dispatched after it, so a message whose pass
had run when `Register` ran is never delivered to `h` unless it is published again; and if
`h` stays registered it is delivered all of them, so a message published before `Register`
whose pass runs after it is delivered to `h`. -/
theorem register_no_replay_of_dispatched (s s2 : Stream) (h : Handle) (ops : List Op)
    (hnd : s.outputs.Nodup) (hex : (s.Register h).exec ops = .ok s2) :
    (s.Register h).dispatched ops ++ (s2.inflight.toList ++ s2.Broadcast.buf)
      = s.inflight.toList ++ s.Broadcast.buf ++ published ops ∧
    (∃ d, (s2.heap h).sent = (s.heap h).sent ++ d ∧
      d.Sublist ((s.Register h).dispatched ops) ∧
      ∀ m ∈ d, m ∈ s.inflight.toList ∨ m ∈ s.Broadcast.buf ∨ m ∈ published ops) ∧
    ((s.Register h).healthy h ops = true →
      (s2.heap h).sent = (s.heap h).sent ++ (s.Register h).dispatched ops) := by
  obtain ⟨a, ⟨d, b1, b2⟩, c⟩ :=
    exec_facts h ops (s.Register h) s2 (nodup_mapInsert _ _ hnd) hex
  refine ⟨a, ⟨d, b1, b2, ?_⟩, ?_⟩
  · intro m hm
    have h1 : m ∈ (s.Register h).dispatched ops ++ (s2.inflight.toList ++ s2.Broadcast.buf) :=
      List.mem_append_left _ (b2.subset hm)
    rw [a] at h1
    simpa [List.mem_append, or_assoc] using h1
  · intro hh
    exact (c hh ((mem_mapInsert _ _ _).mpr (Or.inr rfl))).2

/-- Instance of `register_no_replay_of_dispatched`: 1..5 were published and dispatched, then
consumer 0 registers, then 6..10 are published and dispatched; consumer 0 is delivered
exactly 6..10. -/
theorem register_no_replay_of_dispatched_witness :
    hubFresh.exec (pubs [1, 2, 3, 4, 5] ++ turns 5) = .ok hubFive ∧
    hubFive.outputs.Nodup ∧
    (hubFive.Register 0).exec (pubs [6, 7, 8, 9, 10] ++ turns 5)
      = .ok ((hubFive.Register 0).after (pubs [6, 7, 8, 9, 10] ++ turns 5)) ∧
    (hubFive.Register 0).healthy 0 (pubs [6, 7, 8, 9, 10] ++ turns 5) = true ∧
    ((hubFive.Register 0).dispatched (pubs [6, 7, 8, 9, 10] ++ turns 5)
        ++ (((hubFive.Register 0).after (pubs [6, 7, 8, 9, 10] ++ turns 5)).inflight.toList
          ++ ((hubFive.Register 0).after (pubs [6, 7, 8, 9, 10] ++ turns 5)).Broadcast.buf)
      = hubFive.inflight.toList ++ hubFive.Broadcast.buf
          ++ published (pubs [6, 7, 8, 9, 10] ++ turns 5) ∧
    (∃ d, (((hubFive.Register 0).after (pubs [6, 7, 8, 9, 10] ++ turns 5)).heap 0).sent
        = (hubFive.heap 0).sent ++ d ∧
      d.Sublist ((hubFive.Register 0).dispatched (pubs [6, 7, 8, 9, 10] ++ turns 5)) ∧
      ∀ m ∈ d, m ∈ hubFive.inflight.toList ∨ m ∈ hubFive.Broadcast.buf ∨
        m ∈ published (pubs [6, 7, 8, 9, 10] ++ turns 5)) ∧
    ((hubFive.Register 0).healthy 0 (pubs [6, 7, 8, 9, 10] ++ turns 5) = true →
      (((hubFive.Register 0).after (pubs [6, 7, 8, 9, 10] ++ turns 5)).heap 0).sent
        = (hubFive.heap 0).sent
          ++ (hubFive.Register 0).dispatched (pubs [6, 7, 8, 9, 10] ++ turns 5))) ∧
    (((hubFive.Register 0).after (pubs [6, 7, 8, 9, 10] ++ turns 5)).heap 0).sent
      = [6, 7, 8, 9, 10] ∧
    (((hubFive.Register 0).after (pubs [6, 7, 8, 9, 10] ++ turns 5)).heap 0).buf
      = [6, 7, 8, 9, 10] :=
  ⟨rfl, by decide, rfl, by decide,
    register_no_replay_of_dispatched hubFive _ 0 (pubs [6, 7, 8, 9, 10] ++ turns 5)
      (by decide) rfl,
    by decide, by decide⟩

/-- The case between the two: message 1 was taken off the inbound queue before consumer 0
registered and its pass runs after; consumer 0 is delivered 1, then 2. -/
theorem register_during_turn_gets_inflight_message :
    hubFresh.exec [Op.publish 1, Op.publish 2, Op.take] = .ok hubMidTurn ∧
    hubMidTurn.inflight = some 1 ∧ hubMidTurn.Broadcast.buf = [2] ∧
    (((hubMidTurn.Register 0).after [Op.pass, Op.take, Op.pass]).heap 0).sent = [1, 2] :=
  ⟨rfl, by decide, by decide, by decide⟩

/-- C6 as stated fails: consumer 1 registers, the inbound queue is closed, `run` closes
consumer 1 and returns; a later `Register 0` still puts handle 0 in the consumer set, open and
never closed. -/
theorem register_after_termination_is_accepted :
    ∃ s2, hubFresh.exec [Op.register 1, Op.close, Op.finish, Op.register 0] = .ok s2 ∧
      s2.finished = true ∧ (s2.heap 1).closed = true ∧
      0 ∈ s2.outputs ∧ (s2.heap 0).closed = false ∧ (s2.heap 0).closes = 0 :=
  ⟨_, rfl, by decide, by decide, by decide, by decide, by decide⟩

/-- C6, amended. Once `run` has returned, `Register` of an open handle still adds it to the
consumer set, and along every sequence of later steps that does not `Unregister` it the handle
stays a member, stays open, and is closed by nobody (its close counter does not move): the Hub
gives such a handle no termination signal. -/
theorem register_after_termination_stays_open (s s2 : Stream) (h : Handle) (ops : List Op)
    (hfin : s.finished = true) (ho : (s.heap h).closed = false)
    (hno : Op.unregister h ∉ ops) (hex : (s.Register h).exec ops = .ok s2) :
    h ∈ (s.Register h).outputs ∧
    s2.finished = true ∧ h ∈ s2.outputs ∧ (s2.heap h).closed = false ∧
      (s2.heap h).closes = (s.heap h).closes :=
  ⟨(mem_mapInsert _ _ _).mpr (Or.inr rfl),
    exec_after_finished h ops (s.Register h) s2 hfin hex hno
      ((mem_mapInsert _ _ _).mpr (Or.inr rfl)) ho⟩

/-- Instance of `register_after_termination_stays_open` on a Hub that terminated after
serving consumer 1. -/
theorem register_after_termination_stays_open_witness :
    hubEnded.finished = true ∧ (hubEnded.heap 0).closed = false ∧
    Op.unregister 0 ∉ [Op.register 2, Op.unregister 2, Op.unregister 1] ∧
    (hubEnded.Register 0).exec [Op.register 2, Op.unregister 2, Op.unregister 1]
      = .ok ((hubEnded.Register 0).after [Op.register 2, Op.unregister 2, Op.unregister 1]) ∧
    (0 ∈ (hubEnded.Register 0).outputs ∧
    ((hubEnded.Register 0).after
        [Op.register 2, Op.unregister 2, Op.unregister 1]).finished = true ∧
    0 ∈ ((hubEnded.Register 0).after
        [Op.register 2, Op.unregister 2, Op.unregister 1]).outputs ∧
    (((hubEnded.Register 0).after
        [Op.register 2, Op.unregister 2, Op.unregister 1]).heap 0).closed = false ∧
    (((hubEnded.Register 0).after
        [Op.register 2, Op.unregister 2, Op.unregister 1]).heap 0).closes
      = (hubEnded.heap 0).closes) :=
  ⟨by decide, by decide, by decide, rfl,
    register_after_termination_stays_open hubEnded _ 0
      [Op.register 2, Op.unregister 2, Op.unregister 1] (by decide) (by decide)
      (by decide) rfl⟩

/-! ### Multicast output manager -/

theorem sendPacket_unbound (st : Multicast) (streamKey : String) (data : List Nat)
    (hb : st.ffmpegInputStreams streamKey = none) :
    SendPacket st streamKey data = .error .panic := by
  simp [SendPacket, hb]

theorem sendPacket_bound (st : Multicast) (streamKey : String) (data : List Nat) (w : Pipe)
    (hb : st.ffmpegInputStreams streamKey = some w) :
    ∃ st1, SendPacket st streamKey data = .ok st1 ∧
      st1.ffmpegInputStreams streamKey
        = some (if w.broken then w else { w with written := w.written ++ [data] }) ∧
      (∀ k, k ≠ streamKey → st1.ffmpegInputStreams k = st.ffmpegInputStreams k) ∧
      st1.ffmpegInstances = st.ffmpegInstances ∧ st1.killed = st.killed := by
  unfold SendPacket
  cases hbr : w.broken with
  | true =>
    refine ⟨st, by simp [hb, hbr], by simp [hb], fun _ _ => rfl, rfl, rfl⟩
  | false =>
    refine ⟨{ st with
      ffmpegInputStreams := Function.update st.ffmpegInputStreams streamKey
        (some { w with written := w.written ++ [data] }) }, ?_, by simp [hbr], ?_, rfl, rfl⟩
    · simp [hb, hbr]
    · intro k hk
      simp [Function.update_noteq hk]

/-- C7. The code at the failing input: stream key "quiet" has no destination configured, so
`RegisterStream` returns without binding anything, and `SendPacket` on that key then
dereferences a nil pointer and panics instead of returning silently. -/
theorem sendPacket_without_binding_panics :
    RegisterStream spawnOk mcIdle "quiet" = .ok mcIdle ∧
    mcIdle.ffmpegInputStreams "quiet" = none ∧
    SendPacket mcIdle "quiet" [1, 2, 3] = .error .panic :=
  ⟨rfl, rfl, rfl⟩

theorem closeConnection_unbound (killErr : Bool) (st : Multicast) (streamKey : String)
    (hb : st.ffmpegInstances streamKey = none) :
    CloseConnection killErr st streamKey = .error .panic := by
  simp [CloseConnection, hb]

theorem closeConnection_bound (st : Multicast) (streamKey : String) (c : Cmd)
    (hb : st.ffmpegInstances streamKey = some c) :
    ∃ st1, CloseConnection false st streamKey = .ok st1 ∧
      st1.ffmpegInstances streamKey = none ∧ st1.ffmpegInputStreams streamKey = none ∧
      st1.killed = st.killed ++ [c] ∧
      (∀ k, k ≠ streamKey → st1.ffmpegInstances k = st.ffmpegInstances k ∧
        st1.ffmpegInputStreams k = st.ffmpegInputStreams k) := by
  refine ⟨{ st with
    ffmpegInstances := Function.update st.ffmpegInstances streamKey none,
    ffmpegInputStreams := Function.update st.ffmpegInputStreams streamKey none,
    killed := st.killed ++ [c] }, ?_, by simp, by simp, rfl, ?_⟩
  · simp [CloseConnection, hb]
  · intro k hk
    simp [Function.update_noteq hk]

/-- C8. The code at the failing input: `CloseConnection` on a key without binding
dereferences a nil pointer and panics; and after a stream was started and ended once, a
second `CloseConnection` on the same key panics in the same way instead of being a no-op. -/
theorem closeConnection_without_binding_panics :
    mcIdle.ffmpegInstances "quiet" = none ∧
    CloseConnection false mcIdle "quiet" = .error .panic ∧
    ∃ st1 st2, RegisterStream spawnOk mcIdle "live" = .ok st1 ∧
      CloseConnection false st1 "live" = .ok st2 ∧
      st2.ffmpegInstances "live" = none ∧
      CloseConnection false st2 "live" = .error .panic :=
  ⟨rfl, rfl, _, _, rfl, rfl, by simp, rfl⟩

theorem foldl_stageParams (outputs : List String) :
    ∀ acc : List String,
      outputs.foldl (fun params stream => params ++ stageParams stream) acc
        = acc ++ outputs.flatMap stageParams := by
  induction outputs with
  | nil => intro acc; simp
  | cons u us ih =>
    intro acc
    rw [List.foldl_cons, ih, List.flatMap_cons, List.append_assoc]

theorem stageParams_split (u : String) : stageParams u = stageFixed ++ [u] := rfl

theorem length_stageParams (u : String) : (stageParams u).length = 23 := rfl

theorem length_stages (outputs : List String) :
    (outputs.flatMap stageParams).length = 23 * outputs.length := by
  induction outputs with
  | nil => rfl
  | cons u us ih =>
    rw [List.flatMap_cons, List.length_append, ih, length_stageParams, List.length_cons]
    omega

theorem terminator_stages (outputs : List String) :
    ∀ i : Nat, (outputs.flatMap stageParams)[23 * i + 22]? = outputs[i]? := by
  induction outputs with
  | nil => intro i; simp
  | cons u us ih =>
    intro i
    rw [List.flatMap_cons]
    cases i with
    | zero =>
      have hlt : 23 * 0 + 22 < (stageParams u).length := by rw [length_stageParams]; omega
      rw [List.getElem?_append_left hlt]
      simp [stageParams]
    | succ j =>
      have hle : (stageParams u).length ≤ 23 * (j + 1) + 22 := by
        rw [length_stageParams]; omega
      rw [List.getElem?_append_right hle, length_stageParams]
      have : 23 * (j + 1) + 22 - 23 = 23 * j + 22 := by omega
      rw [this, ih j]
      simp

theorem buildParams_eq (outputs : List String) :
    buildParams outputs = ["-re", "-i", "pipe:0"] ++ outputs.flatMap stageParams :=
  foldl_stageParams outputs _

/-- C9. For every stream key: with an empty or missing destination list `RegisterStream`
returns the state unchanged, so it spawns nothing. Otherwise the argument list is the prefix
`-re -i pipe:0` followed by one stage per destination in configured order, each stage being
the same 22 fixed parameters followed by its destination; the list has `3 + 23 * n` elements,
the last element of stage `i` is destination `i`, and when the pipes open and the process
starts that list is what the command bound to the key was built with. -/
theorem registerStream_one_stage_per_destination (env : SpawnEnv) (st : Multicast)
    (streamKey : String) :
    (st.options streamKey = [] → RegisterStream env st streamKey = .ok st) ∧
    (∀ u, stageParams u = stageFixed ++ [u]) ∧
    buildParams (st.options streamKey)
      = ["-re", "-i", "pipe:0"] ++ (st.options streamKey).flatMap (fun u => stageFixed ++ [u]) ∧
    (buildParams (st.options streamKey)).length = 3 + 23 * (st.options streamKey).length ∧
    (∀ i, (buildParams (st.options streamKey))[3 + 23 * i + 22]? = (st.options streamKey)[i]?) ∧
    (st.options streamKey ≠ [] →
      RegisterStream env st streamKey =
        if env.stdinErr || env.stdoutErr || env.stderrErr || env.startErr then .error .panic
        else .ok { st with
          ffmpegInstances := Function.update st.ffmpegInstances streamKey
            (some { args := buildParams (st.options streamKey) }),
          ffmpegInputStreams := Function.update st.ffmpegInputStreams streamKey
            (some { written := [], broken := false }) }) := by
  refine ⟨?_, stageParams_split, buildParams_eq _, ?_, ?_, ?_⟩
  · intro he
    simp [RegisterStream, he]
  · rw [buildParams_eq, List.length_append, length_stages]
    simp
  · intro i
    rw [buildParams_eq]
    have hle : ["-re", "-i", "pipe:0"].length ≤ 3 + 23 * i + 22 := by simp
    rw [List.getElem?_append_right hle]
    have : 3 + 23 * i + 22 - ["-re", "-i", "pipe:0"].length = 23 * i + 22 := by simp; omega
    rw [this, terminator_stages]
  · intro hne
    have hlen : (st.options streamKey).length ≠ 0 := fun h => hne (List.length_eq_zero.mp h)
    unfold RegisterStream
    rw [if_neg hlen]
    cases env.stdinErr <;> cases env.stdoutErr <;> cases env.stderrErr <;>
      cases env.startErr <;> simp

/-- Instance of `registerStream_one_stage_per_destination` on key "live" with two
destinations, and on key "quiet" with none. -/
theorem registerStream_one_stage_per_destination_witness :
    mcIdle.options "quiet" = [] ∧ RegisterStream spawnOk mcIdle "quiet" = .ok mcIdle ∧
    mcIdle.options "live" ≠ [] ∧
    (buildParams (mcIdle.options "live")).length = 3 + 23 * (mcIdle.options "live").length ∧
    (buildParams (mcIdle.options "live"))[3 + 23 * 1 + 22]? = (mcIdle.options "live")[1]? ∧
    RegisterStream spawnOk mcIdle "live" =
      if spawnOk.stdinErr || spawnOk.stdoutErr || spawnOk.stderrErr || spawnOk.startErr
      then .error .panic
      else .ok { mcIdle with
        ffmpegInstances := Function.update mcIdle.ffmpegInstances "live"
          (some { args := buildParams (mcIdle.options "live") }),
        ffmpegInputStreams := Function.update mcIdle.ffmpegInputStreams "live"
          (some { written := [], broken := false }) } :=
  ⟨by decide,
    (registerStream_one_stage_per_destination spawnOk mcIdle "quiet").1 (by decide),
    by decide,
    (registerStream_one_stage_per_destination spawnOk mcIdle "live").2.2.2.1,
    (registerStream_one_stage_per_destination spawnOk mcIdle "live").2.2.2.2.1 1,
    (registerStream_one_stage_per_destination spawnOk mcIdle "live").2.2.2.2.2 (by decide)⟩

/-! ### Relay receive loops -/

theorem forTrack_forTrack (p : Packet) (t u : Track) :
    (p.forTrack t).forTrack u = p.forTrack u := rfl

theorem writeToTracks_eq (writeErr : Track → Packet → Bool) (ts : List Track) :
    ∀ p : Packet, writeToTracks writeErr p ts
      = ts.map (fun t =>
          { track := t, packet := p.forTrack t, failed := writeErr t (p.forTrack t) }) := by
  induction ts with
  | nil => intro p; rfl
  | cons t ts ih =>
    intro p
    have h := ih (p.forTrack t)
    simp only [forTrack_forTrack] at h
    simp only [writeToTracks, List.map_cons]
    exact congrArg _ h

theorem relayDatagram_decoded (unmarshal : List Nat → Option Packet)
    (writeErr : Track → Packet → Bool) (kind : Kind) (name : String) (tracks : Tracks)
    (bytes : List Nat) (p : Packet) (hd : unmarshal (bytes.take 1500) = some p) :
    (relayDatagram unmarshal writeErr kind name tracks bytes).2
      = ((tracks kind name).getD []).map (fun t =>
          { track := t, packet := p.forTrack t, failed := writeErr t (p.forTrack t) }) := by
  unfold relayDatagram
  simp only [hd]
  rw [writeToTracks_eq]
  cases ht : tracks kind name with
  | none => simp
  | some l => simp [ht]

/-- C10. For every datagram a receive loop (video or audio) reads, whatever the decoder, the
sinks and the outcome of each delivery: if the (at most 1500) bytes decode to `p`, the loop
makes one offer per sink registered at that turn for this kind and stream, in slice order, the
offered packet being `p` with payload type and SSRC replaced by the values of that sink and
every other field as decoded, and the offers are the same whichever deliveries fail; if the
bytes do not decode, no offer is made and the track maps are untouched; in both cases the loop
goes on with the remaining turns. -/
theorem relay_fanout_rewrites_headers (unmarshal : List Nat → Option Packet)
    (writeErr : Track → Packet → Bool) (kind : Kind) (name : String) (tracks : Tracks)
    (a : Arrival) (rest : List Arrival) (bytes : List Nat) (hr : a.read = some bytes) :
    (∀ p, unmarshal (bytes.take 1500) = some p →
      (relayDatagram unmarshal writeErr kind name (a.touch tracks) bytes).2
        = ((a.touch tracks kind name).getD []).map (fun t =>
            { track := t, packet := p.forTrack t, failed := writeErr t (p.forTrack t) }) ∧
      ∀ writeErr2 : Track → Packet → Bool,
        (relayDatagram unmarshal writeErr2 kind name (a.touch tracks) bytes).2.map
            (fun o => (o.track, o.packet))
          = (relayDatagram unmarshal writeErr kind name (a.touch tracks) bytes).2.map
            (fun o => (o.track, o.packet))) ∧
    (∀ (p : Packet) (t : Track), (p.forTrack t).payloadType = t.payloadType ∧ (p.forTrack t).ssrc = t.ssrc ∧
      (p.forTrack t).version = p.version ∧ (p.forTrack t).padding = p.padding ∧
      (p.forTrack t).extension = p.extension ∧ (p.forTrack t).marker = p.marker ∧
      (p.forTrack t).sequenceNumber = p.sequenceNumber ∧
      (p.forTrack t).timestamp = p.timestamp ∧ (p.forTrack t).csrc = p.csrc ∧
      (p.forTrack t).payload = p.payload) ∧
    (unmarshal (bytes.take 1500) = none →
      relayDatagram unmarshal writeErr kind name (a.touch tracks) bytes = (a.touch tracks, [])) ∧
    (receiveLoop unmarshal writeErr kind name tracks (a :: rest)).2
      = (relayDatagram unmarshal writeErr kind name (a.touch tracks) bytes).2 ::
        (receiveLoop unmarshal writeErr kind name
          (relayDatagram unmarshal writeErr kind name (a.touch tracks) bytes).1 rest).2 := by
  refine ⟨?_, ?_, ?_, ?_⟩
  · intro p hd
    refine ⟨relayDatagram_decoded unmarshal writeErr kind name _ bytes p hd, ?_⟩
    intro writeErr2
    rw [relayDatagram_decoded unmarshal writeErr kind name _ bytes p hd,
      relayDatagram_decoded unmarshal writeErr2 kind name _ bytes p hd]
    simp [List.map_map, Function.comp_def]
  · intro p t
    exact ⟨rfl, rfl, rfl, rfl, rfl, rfl, rfl, rfl, rfl, rfl⟩
  · intro hd
    simp [relayDatagram, hd]
  · simp [receiveLoop, hr]

/-- Instance of `relay_fanout_rewrites_headers`: a well-formed datagram, a corrupt one and a
well-formed one on the video loop of stream "demo", every delivery to sink 1 failing. Both
well-formed packets reach both video sinks with the fields of each sink, the corrupt one
reaches nobody, and the audio sink is never served. -/
theorem relay_fanout_rewrites_headers_witness :
    (toyUnmarshal ([5, 1, 2].take 1500)).isSome = true ∧
    (∀ p, toyUnmarshal ([5, 1, 2].take 1500) = some p →
      (relayDatagram toyUnmarshal (fun t _ => decide (t.id = 1)) Kind.video "demo"
          (id toyTracks) [5, 1, 2]).2
        = ((id toyTracks Kind.video "demo").getD []).map (fun t =>
            { track := t, packet := p.forTrack t,
              failed := (fun t _ => decide (t.id = 1)) t (p.forTrack t) })) ∧
    (receiveLoop toyUnmarshal (fun t _ => decide (t.id = 1)) Kind.video "demo" toyTracks
        [{ touch := id, read := some [5, 1, 2] }, { touch := id, read := some [] },
         { touch := id, read := some [6, 3] }]).2
      = (relayDatagram toyUnmarshal (fun t _ => decide (t.id = 1)) Kind.video "demo"
          (id toyTracks) [5, 1, 2]).2 ::
        (receiveLoop toyUnmarshal (fun t _ => decide (t.id = 1)) Kind.video "demo"
          (relayDatagram toyUnmarshal (fun t _ => decide (t.id = 1)) Kind.video "demo"
            (id toyTracks) [5, 1, 2]).1
          [{ touch := id, read := some [] }, { touch := id, read := some [6, 3] }]).2 ∧
    (receiveLoop toyUnmarshal (fun t _ => decide (t.id = 1)) Kind.video "demo" toyTracks
        [{ touch := id, read := some [5, 1, 2] }, { touch := id, read := some [] },
         { touch := id, read := some [6, 3] }]).2.map
        (fun os => os.map (fun o => (o.track.id, o.packet.payloadType, o.packet.ssrc,
          o.packet.sequenceNumber, o.packet.payload, o.failed)))
      = [[(1, 96, 11, 5, [1, 2], true), (2, 97, 22, 5, [1, 2], false)], [],
         [(1, 96, 11, 6, [3], true), (2, 97, 22, 6, [3], false)]] :=
  ⟨rfl,
    fun p hp => ((relay_fanout_rewrites_headers toyUnmarshal (fun t _ => decide (t.id = 1))
      Kind.video "demo" toyTracks { touch := id, read := some [5, 1, 2] }
      [{ touch := id, read := some [] }, { touch := id, read := some [6, 3] }]
      [5, 1, 2] rfl).1 p hp).1,
    (relay_fanout_rewrites_headers toyUnmarshal (fun t _ => decide (t.id = 1)) Kind.video
      "demo" toyTracks { touch := id, read := some [5, 1, 2] }
      [{ touch := id, read := some [] }, { touch := id, read := some [6, 3] }]
      [5, 1, 2] rfl).2.2.2,
    rfl⟩

end Ghostream
